import Mathlib

/-!
# The select reactor of `selectunix.c`

A shallow embedding of `selectSend` and of one pass of the `for ( ; ; )` loop of
`selectServer`, followed by theorems about them.

Conventions of the embedding.

* A `Socket*` is identified with the descriptor stored in its first field (the
  value read by `*(int*)sock`): a live socket object holds one descriptor and the
  operating system never hands out a descriptor that is still open.  `NULL` in the
  table is `none`.
* `fd_set` is a finite set of descriptors with `FD_SET`, `FD_CLR`, `FD_ISSET`.  An
  `fd_set` has one bit for each descriptor in `[0, FD_SETSIZE)`; on a descriptor outside
  that range `FD_SET` writes outside the set, which C leaves undefined.  A descriptor
  enters the sets at two places: the listening one at line 61 and an accepted one at line
  129.  The embedding tests the range there (`fdInRange`): the executions considered
  start with a listening descriptor inside it, and a pass that stores an accepted
  descriptor outside it ends as `Loop.undefined`.  In these executions every other set
  operation is on a descriptor that went through one of the two lines.
* The fields `ractual` and `wactual` of every `SelectPrivate` entry all point to the
  two sets local to `selectServer`; they are therefore fields of the whole `Server`.
* `data` is the offset of the cursor inside `buffer`; `dataSize` is an `unsigned`,
  so subtraction on it wraps modulo `2 ^ 32`.
* `FD_SETSIZE` comes from a system header and is a parameter.
* The program is the build with assertions enabled (the build command documented in
  `server.c` does not define `NDEBUG`): a failed `assert` stops the program, and the
  state at that point is kept in the result.
* A `socketRecv` that fails stores nothing in the buffer.
* `socketDestroy` frees the socket object.  After a teardown in the read branch (lines
  146-153 and 155-162) the loop body goes on to line 166 and, unless the counter leaves
  the loop there, to line 169, which evaluates `*(int*)sock` on the freed object.  C
  leaves that read undefined: the embedding ends the pass there as `Flow.undefined`, then
  `Loop.undefined`, and keeps the state and the events up to that point in the result.
* What the outside world answers during one pass (the result of `select`, of
  `socketAccept`, of each `socketRecv` and `socketSend`, and the `selectSend` calls
  made by the two callbacks that receive the `context` pointer) is collected in `Env`.
* Every socket operation and callback is recorded, in order, as an `Event`.
-/

namespace SelectUnix

/-- One `char` of a buffer. -/
abbrev Byte := Nat

/-- A socket object, named by its descriptor `sd`. -/
structure Socket where
  sd : Int
deriving DecidableEq, Repr

/-- The descriptor sets of `select(2)`. -/
abbrev fd_set := Finset Int

/-- Whether a descriptor has a bit in an `fd_set`: `0 <= fd < FD_SETSIZE`.  Only for such a
descriptor are `FD_SET`, `FD_CLR` and `FD_ISSET` defined. -/
def fdInRange (FD_SETSIZE : Nat) (fd : Int) : Bool := decide (0 ≤ fd ∧ fd < FD_SETSIZE)

/-- Empty descriptor set. -/
def FD_ZERO : fd_set := ∅

/-- Add a descriptor to a set; for a descriptor that has a bit in it (`fdInRange`). -/
def FD_SET (fd : Int) (s : fd_set) : fd_set := insert fd s

/-- Remove a descriptor from a set; for a descriptor that has a bit in it (`fdInRange`). -/
def FD_CLR (fd : Int) (s : fd_set) : fd_set := s.erase fd

/-- Membership test on a descriptor set; for a descriptor that has a bit in it
(`fdInRange`). -/
def FD_ISSET (fd : Int) (s : fd_set) : Bool := decide (fd ∈ s)

/-- The entry `struct SelectPrivate` of the client table. -/
structure SelectPrivate where
  sock : Option Socket
  buffer : List Byte
  buferSize : Nat
  data : Nat
  dataSize : Nat
deriving DecidableEq, Repr

/-- The locals of `selectServer` that live across passes of its loop. -/
structure Server where
  client : List SelectPrivate
  ractual : fd_set
  wactual : fd_set
deriving DecidableEq

/-- Values of `errno` the code distinguishes. -/
inductive Errno where
  | EWOULDBLOCK
  | EAGAIN
  | EINTR
  | other (code : Nat)
deriving DecidableEq, Repr

/-- The test `(errno == EWOULDBLOCK) || (errno == EAGAIN) || (errno == EINTR)`. -/
def Errno.transient : Errno → Bool
  | .EWOULDBLOCK => true
  | .EAGAIN => true
  | .EINTR => true
  | .other _ => false

/-- The `buffer` argument of `selectSend`: either the internal buffer of table entry
`j` (the pointer handed to `onSelectServerRecvOk`) or memory of the application. -/
inductive BufPtr where
  | slot (j : Nat)
  | mem (bytes : List Byte)
deriving DecidableEq, Repr

/-- Socket operations and callbacks, as they are performed. -/
inductive Event where
  | socketAccept (listen conn : Socket) (rc : Int)
  | socketSetBlocking (sock : Socket) (rc : Int)
  | socketClose (sock : Socket)
  | socketDestroy (sock : Socket)
  | socketRecv (sock : Socket) (bytes : Nat) (rc : Int)
  | socketSend (sock : Socket) (region : List Byte) (bytes : Nat) (rc : Int)
  | onSelectServerConnect (sock : Socket)
  | onSelectServerDisconnect (sock : Socket)
  | onSelectServerRecvErr (sock : Socket)
  | onSelectServerRecvOk (sock : Socket) (buffer : List Byte) (size : Nat)
  | onSelectServerSentErr (sock : Socket)
  | onSelectServerSentOk (sock : Socket) (buffer : List Byte) (size : Nat)
deriving DecidableEq, Repr

/-- Result of a call that may stop at a failed `assert`. -/
inductive Outcome where
  | ok (st : Server)
  | assertFailed (st : Server)
deriving DecidableEq

/-- Modulus of `unsigned`. -/
def UINT_MOD : Nat := 2 ^ 32

/-- Subtraction on `unsigned`. -/
def usub (a b : Nat) : Nat := (a + UINT_MOD - b % UINT_MOD) % UINT_MOD

/-- The loop `for (i = start; i < start + n; i++) if (p i) break;`: the value of `i` when
the loop is left. -/
def firstIndex (p : Nat → Bool) : Nat → Nat → Nat
  | 0, i => i
  | n + 1, i => if p i then i else firstIndex p n (i + 1)

/-- The call `memmove(dst, src, size)` on the contents of the destination. -/
def memmove (dst src : List Byte) (size : Nat) : List Byte :=
  src.take size ++ dst.drop size

/-- The bytes a `buffer` argument points to. -/
def deref (st : Server) : BufPtr → List Byte
  | .slot j => match st.client[j]? with
    | some c => c.buffer
    | none => []
  | .mem bytes => bytes

/-- The value of `client[i].sock`, `none` for `NULL` (and outside the table). -/
def sockAt (st : Server) (i : Nat) : Option Socket :=
  match st.client[i]? with
  | some c => c.sock
  | none => none

/-- The constant returned by `selectMaxConnections`. -/
def selectMaxConnections (FD_SETSIZE : Nat) : Nat := FD_SETSIZE

/-- The function `selectSend`; `context` is the table inside `st`. -/
def selectSend (FD_SETSIZE : Nat) (st : Server) (sock : Socket) (buffer : BufPtr)
    (size : Nat) : Outcome :=
  -- assert((size > 0) && (size <= client->buferSize)), with client = context
  match st.client[0]? with
  | none => .assertFailed st
  | some c0 =>
    if 0 < size ∧ size ≤ c0.buferSize then
      let i := firstIndex (fun k => decide (sockAt st k = some sock)) FD_SETSIZE 0
      -- assert(i != FD_SETSIZE)
      if i = FD_SETSIZE then .assertFailed st
      else
        match st.client[i]? with
        | none => .assertFailed st -- outside the table: not reached when it has FD_SETSIZE entries
        | some c =>
          let buf := if buffer = BufPtr.slot i then c.buffer
            else memmove c.buffer (deref st buffer) size
          .ok { client := st.client.set i { c with buffer := buf, data := 0, dataSize := size }
                ractual := FD_CLR sock.sd st.ractual
                wactual := FD_SET sock.sd st.wactual }
    else .assertFailed st

/-- One call of `selectSend` made by a callback. -/
structure SendCall where
  sock : Socket
  buffer : BufPtr
  size : Nat
deriving DecidableEq, Repr

/-- The `selectSend` calls of one callback invocation, in order. -/
def runCallback (FD_SETSIZE : Nat) : List SendCall → Server → Outcome
  | [], st => .ok st
  | c :: cs, st =>
    match selectSend FD_SETSIZE st c.sock c.buffer c.size with
    | .ok st1 => runCallback FD_SETSIZE cs st1
    | .assertFailed st1 => .assertFailed st1

/-- Result of `socketRecv`: `-1` with `errno`, or the bytes stored (their number is `rc`). -/
inductive RecvResult where
  | error (errno : Errno)
  | received (bytes : List Byte)
deriving DecidableEq, Repr

/-- Result of `socketSend`: `-1` with `errno`, or the count `rc`. -/
inductive SendResult where
  | error (errno : Errno)
  | sent (rc : Nat)
deriving DecidableEq, Repr

/-- Result of `select`: `-1` with `errno`, or the count and the two ready sets. -/
inductive SelectResult where
  | error (errno : Errno)
  | ready (rc : Nat) (rset wset : fd_set)
deriving DecidableEq

/-- Result of `socketAccept` (`-1`, `1`, or `0` with the new socket) and, in the last
case, whether `socketSetBlocking` succeeded. -/
inductive AcceptResult where
  | failed
  | wouldBlock
  | ok (sock : Socket) (nonblocking : Bool)
deriving DecidableEq, Repr

/-- What the outside world answers during one pass of the loop.  `recv i`, `send i`,
`onRecvOk i` and `onSentOk i` are the answers for table entry `i`. -/
structure Env where
  select : SelectResult
  accept : AcceptResult
  recv : Nat → RecvResult
  send : Nat → SendResult
  onRecvOk : Nat → List SendCall
  onSentOk : Nat → List SendCall

/-- How a branch of the loop body ends: it falls through with the socket alive (`done`),
it falls through after `socketClose` and `socketDestroy` of the socket (`freed`), it runs
`continue`, or an assertion stops the program. -/
inductive Branch where
  | done
  | freed
  | skip
  | abort
deriving DecidableEq, Repr

/-- How the loop body for one entry ends: next entry, `break`, a failed assertion, or a
step that C leaves undefined (the read of a freed socket at line 169). -/
inductive Flow where
  | next
  | brk
  | abort
  | undefined
deriving DecidableEq, Repr

/-- How one pass of `for ( ; ; )` ends: back to `select`, `break` out of the loop, a
failed assertion, or a step that C leaves undefined (the read of a freed socket at line
169, `FD_SET` at line 129 on a descriptor outside the set). -/
inductive Loop where
  | wait
  | exit
  | abort
  | undefined
deriving DecidableEq, Repr

/-- Clear `client[i].sock`. -/
def freeSlot (client : List SelectPrivate) (i : Nat) : List SelectPrivate :=
  match client[i]? with
  | some c => client.set i { c with sock := none }
  | none => client

/-- The effect of a successful `socketRecv(sock, client[i].buffer, ..)` on memory: the
bytes received are stored at the start of the buffer of entry `i`. -/
def recvInto (st : Server) (i : Nat) (bytes : List Byte) : Server :=
  match st.client[i]? with
  | some c =>
    { st with client := st.client.set i { c with buffer := memmove c.buffer bytes bytes.length } }
  | none => st

/-- The read branch of the loop body (the block under `FD_ISSET(.., &rset)`, without the
counter): `res` is the result of `socketRecv`, `calls` what `onSelectServerRecvOk` does. -/
def readBranch (FD_SETSIZE maxChunkSize : Nat) (i : Nat) (sock : Socket) (st : Server)
    (res : RecvResult) (calls : List SendCall) : Branch × Server × List Event :=
  match res with
  | .error errno =>
    if errno.transient then (.skip, st, [.socketRecv sock maxChunkSize (-1)])
    else
      (.freed,
        { client := freeSlot st.client i
          ractual := FD_CLR sock.sd st.ractual
          wactual := FD_CLR sock.sd st.wactual },
        [.socketRecv sock maxChunkSize (-1), .onSelectServerRecvErr sock,
          .socketClose sock, .socketDestroy sock])
  | .received bytes =>
    let rc := bytes.length
    let st1 := recvInto st i bytes
    if rc = 0 then
      (.freed,
        { client := freeSlot st1.client i
          ractual := FD_CLR sock.sd st1.ractual
          wactual := FD_CLR sock.sd st1.wactual },
        [.socketRecv sock maxChunkSize 0, .onSelectServerDisconnect sock,
          .socketClose sock, .socketDestroy sock])
    else
      let ev := [Event.socketRecv sock maxChunkSize rc, .onSelectServerRecvOk sock bytes rc]
      match runCallback FD_SETSIZE calls st1 with
      | .ok st2 => (.done, st2, ev)
      | .assertFailed st2 => (.abort, st2, ev)

/-- The write branch of the loop body (the block under `FD_ISSET(.., &wset)`, without the
counter): `res` is the result of `socketSend`, `calls` what `onSelectServerSentOk` does. -/
def writeBranch (FD_SETSIZE : Nat) (i : Nat) (sock : Socket) (st : Server)
    (res : SendResult) (calls : List SendCall) : Branch × Server × List Event :=
  match st.client[i]? with
  | none => (.done, st, []) -- outside the table: not reached, `sock` was read from entry `i`
  | some c =>
    let region := (c.buffer.drop c.data).take c.dataSize
    match res with
    | .error errno =>
      if errno.transient then (.skip, st, [.socketSend sock region c.dataSize (-1)])
      else
        (.freed,
          { client := freeSlot st.client i
            ractual := st.ractual
            wactual := FD_CLR sock.sd st.wactual },
          [.socketSend sock region c.dataSize (-1), .onSelectServerSentErr sock,
            .socketClose sock, .socketDestroy sock])
    | .sent rc =>
      -- assert(client[i].dataSize >= rc)
      if ¬ (c.dataSize ≥ rc) then (.abort, st, [.socketSend sock region c.dataSize rc])
      else if c.dataSize ≥ rc then
        let ev := [Event.socketSend sock region c.dataSize rc,
          .onSelectServerSentOk sock ((c.buffer.drop c.data).take rc) rc]
        match runCallback FD_SETSIZE calls st with
        | .assertFailed st1 => (.abort, st1, ev)
        | .ok st1 =>
          match st1.client[i]? with
          | none => (.done, st1, ev) -- not reached: callbacks keep the table length
          | some c1 =>
            let c2 := { c1 with data := c1.data + rc, dataSize := usub c1.dataSize rc }
            let st2 : Server := { st1 with client := st1.client.set i c2 }
            if c2.dataSize = 0 then
              (.done, { st2 with ractual := FD_SET sock.sd st2.ractual
                                 wactual := FD_CLR sock.sd st2.wactual }, ev)
            else (.done, st2, ev)
      else
        (.freed,
          { client := freeSlot st.client i
            ractual := FD_CLR sock.sd st.ractual
            wactual := FD_CLR sock.sd st.wactual },
          [.socketSend sock region c.dataSize rc, .socketClose sock, .socketDestroy sock])

/-- The second half of the loop body, entered with the socket `sock` of entry `i` alive:
the write test of line 169 and what follows it.  `ev0` are the events of the first half.
After a teardown in the write branch nothing reads `sock` any more. -/
def writePart (FD_SETSIZE : Nat) (env : Env) (wset : fd_set) (i : Nat) (sock : Socket)
    (st : Server) (nready : Int) (ev0 : List Event) : Flow × Server × Int × List Event :=
  if FD_ISSET sock.sd wset then
    match writeBranch FD_SETSIZE i sock st (env.send i) (env.onSentOk i) with
    | (.skip, st1, ev1) => (.next, st1, nready, ev0 ++ ev1)
    | (.abort, st1, ev1) => (.abort, st1, nready, ev0 ++ ev1)
    | (.done, st1, ev1) =>
      if nready - 1 ≤ 0 then (.brk, st1, nready - 1, ev0 ++ ev1)
      else (.next, st1, nready - 1, ev0 ++ ev1)
    | (.freed, st1, ev1) =>
      if nready - 1 ≤ 0 then (.brk, st1, nready - 1, ev0 ++ ev1)
      else (.next, st1, nready - 1, ev0 ++ ev1)
  else (.next, st, nready, ev0)

/-- The body of `for (i = 0; i < FD_SETSIZE; i++)` for entry `i`.  The read branch has no
`continue` after its two teardowns: when it has destroyed the socket and the counter does
not leave the loop at line 166, the test of line 169 reads the freed object. -/
def clientBody (FD_SETSIZE maxChunkSize : Nat) (env : Env) (rset wset : fd_set) (i : Nat)
    (st : Server) (nready : Int) : Flow × Server × Int × List Event :=
  match sockAt st i with
  | none => (.next, st, nready, [])
  | some sock =>
    if FD_ISSET sock.sd rset then
      match readBranch FD_SETSIZE maxChunkSize i sock st (env.recv i) (env.onRecvOk i) with
      | (.skip, st1, ev1) => (.next, st1, nready, ev1)
      | (.abort, st1, ev1) => (.abort, st1, nready, ev1)
      | (.done, st1, ev1) =>
        if nready - 1 ≤ 0 then (.brk, st1, nready - 1, ev1)
        else writePart FD_SETSIZE env wset i sock st1 (nready - 1) ev1
      | (.freed, st1, ev1) =>
        if nready - 1 ≤ 0 then (.brk, st1, nready - 1, ev1)
        else
          -- line 169: `*(int*)sock` after `socketDestroy(sock)`
          (.undefined, st1, nready - 1, ev1)
    else writePart FD_SETSIZE env wset i sock st nready []

/-- The loop `for (i = start; i < start + n; i++)` over the table ("check all clients for
data"); called with `n = FD_SETSIZE` and `start = 0`. -/
def scanClients (FD_SETSIZE maxChunkSize : Nat) (env : Env) (rset wset : fd_set) :
    Nat → Nat → Server → Int → Flow × Server × List Event
  | 0, _, st, _ => (.next, st, [])
  | n + 1, i, st, nready =>
    match clientBody FD_SETSIZE maxChunkSize env rset wset i st nready with
    | (.next, st1, nready1, ev1) =>
      match scanClients FD_SETSIZE maxChunkSize env rset wset n (i + 1) st1 nready1 with
      | (fl, st2, ev2) => (fl, st2, ev1 ++ ev2)
    | (fl, st1, _, ev1) => (fl, st1, ev1)

/-- After the scan the outer loop goes back to `select`, unless an assertion failed or
the scan met an undefined step. -/
def Flow.toLoop : Flow → Loop
  | .next => .wait
  | .brk => .wait
  | .abort => .abort
  | .undefined => .undefined

/-- The scan of the table as the tail of one pass; `ev0` are the events of the accept
phase. -/
def scanPhase (FD_SETSIZE maxChunkSize : Nat) (env : Env) (rset wset : fd_set)
    (st : Server) (nready : Int) (ev0 : List Event) : Loop × Server × List Event :=
  match scanClients FD_SETSIZE maxChunkSize env rset wset FD_SETSIZE 0 st nready with
  | (fl, st1, ev1) => (fl.toLoop, st1, ev0 ++ ev1)

/-- The test `client[k].sock == NULL` on an entry of the table. -/
def isFree (st : Server) (k : Nat) : Bool :=
  match st.client[k]? with
  | some c => c.sock.isNone
  | none => false

/-- The search "look where to store sock": the first `i` with `client[i].sock == NULL`,
or `FD_SETSIZE`. -/
def freeIndex (FD_SETSIZE : Nat) (st : Server) : Nat :=
  firstIndex (isFree st) FD_SETSIZE 0

/-- Store an accepted socket in entry `i` and register it: `client[i].sock = sock`,
`FD_SET(.., &ractual)`, `FD_CLR(.., &wactual)`, for a descriptor that has a bit in the
sets. -/
def storeSock (st : Server) (i : Nat) (sock : Socket) : Server :=
  { client := match st.client[i]? with
      | some c => st.client.set i { c with sock := some sock }
      | none => st.client
    ractual := FD_SET sock.sd st.ractual
    wactual := FD_CLR sock.sd st.wactual }

/-- One pass of the loop `for ( ; ; )` of `selectServer`. -/
def selectServerCycle (FD_SETSIZE maxChunkSize : Nat) (listen : Socket) (env : Env)
    (st : Server) : Loop × Server × List Event :=
  match env.select with
  | .error errno => if errno = Errno.EINTR then (.wait, st, []) else (.exit, st, [])
  | .ready rc rset wset =>
    let nready : Int := rc
    if FD_ISSET listen.sd rset then
      match env.accept with
      | .failed =>
        (.wait, st, [.socketAccept listen ⟨-1⟩ (-1), .socketDestroy ⟨-1⟩])
      | .wouldBlock =>
        (.wait, st, [.socketAccept listen ⟨-1⟩ 1, .socketDestroy ⟨-1⟩])
      | .ok sock nonblocking =>
        if nonblocking = false then
          (.exit, st, [.socketAccept listen sock 0, .socketSetBlocking sock (-1),
            .socketClose sock, .socketDestroy sock])
        else
          let i := freeIndex FD_SETSIZE st
          if i = FD_SETSIZE then
            (.wait, st, [.socketAccept listen sock 0, .socketSetBlocking sock 0,
              .socketClose sock, .socketDestroy sock])
          else if fdInRange FD_SETSIZE sock.sd = false then
            -- line 117 has stored the socket; `FD_SET` of line 129 writes outside `ractual`
            (.undefined, { st with client := (storeSock st i sock).client },
              [.socketAccept listen sock 0, .socketSetBlocking sock 0])
          else
            let st1 := storeSock st i sock
            let ev := [Event.socketAccept listen sock 0, .socketSetBlocking sock 0,
              .onSelectServerConnect sock]
            if nready - 1 ≤ 0 then (.wait, st1, ev)
            else scanPhase FD_SETSIZE maxChunkSize env rset wset st1 (nready - 1) ev
    else scanPhase FD_SETSIZE maxChunkSize env rset wset st nready []

/-- The state built by `selectServer` before its loop: a zeroed table of `FD_SETSIZE`
entries, each with a buffer of `maxChunkSize` bytes whose contents `malloc` leaves
unspecified (`garbage i k` is byte `k` of buffer `i`), and the listening socket registered
for reading. -/
def selectServerInit (FD_SETSIZE maxChunkSize : Nat) (listen : Socket)
    (garbage : Nat → Nat → Byte) : Server :=
  { client := (List.range FD_SETSIZE).map fun i =>
      { sock := none
        buffer := (List.range maxChunkSize).map (garbage i)
        buferSize := maxChunkSize
        data := 0
        dataSize := 0 }
    ractual := FD_SET listen.sd FD_ZERO
    wactual := FD_ZERO }

/-- What the operating system guarantees about the answers of one pass started in state
`st`: the ready sets returned by `select` are subsets of the sets passed in and the count
is the number of descriptors in them; the descriptor of an accepted socket is not one
that is open (neither the listening one nor one in the table). -/
def Env.Valid (listen : Socket) (st : Server) (env : Env) : Prop :=
  (match env.select with
    | .error _ => True
    | .ready rc rset wset =>
      rset ⊆ st.ractual ∧ wset ⊆ st.wactual ∧ rc = rset.card + wset.card) ∧
  (match env.accept with
    | .ok sock _ => sock ≠ listen ∧ ∀ c ∈ st.client, c.sock ≠ some sock
    | _ => True)

/-- The states of the reactor at the top of its loop: the initial one, for a listening
descriptor that has a bit in the sets (line 61), and the one after any pass that goes back
to `select`. -/
inductive Reachable (FD_SETSIZE maxChunkSize : Nat) (listen : Socket) : Server → Prop where
  | init (garbage : Nat → Nat → Byte) :
    fdInRange FD_SETSIZE listen.sd = true →
    Reachable FD_SETSIZE maxChunkSize listen
      (selectServerInit FD_SETSIZE maxChunkSize listen garbage)
  | cycle {st st' : Server} (env : Env) (ev : List Event) :
    Reachable FD_SETSIZE maxChunkSize listen st →
    env.Valid listen st →
    selectServerCycle FD_SETSIZE maxChunkSize listen env st = (.wait, st', ev) →
    Reachable FD_SETSIZE maxChunkSize listen st'

/-- The state carried by an outcome. -/
def Outcome.state : Outcome → Server
  | .ok st => st
  | .assertFailed st => st

/-- Facts that hold in every state the reactor goes through. -/
structure Inv (FD_SETSIZE maxChunkSize : Nat) (listen : Socket) (st : Server) : Prop where
  length_eq : st.client.length = FD_SETSIZE
  bufer : ∀ (i : Nat) (c : SelectPrivate), st.client[i]? = some c → c.buferSize = maxChunkSize
  disjoint : ∀ fd, fd ∈ st.ractual → fd ∉ st.wactual
  distinct : ∀ i j s, sockAt st i = some s → sockAt st j = some s → i = j
  listen_out : ∀ i, sockAt st i ≠ some listen
  pending : ∀ (i : Nat) (c : SelectPrivate) (s : Socket), st.client[i]? = some c →
    c.sock = some s → s.sd ∈ st.wactual →
    c.dataSize ≠ 0
  listen_in : fdInRange FD_SETSIZE listen.sd = true
  inrange : ∀ i s, sockAt st i = some s → fdInRange FD_SETSIZE s.sd = true

/-- Number of occupied entries of the table. -/
def occupied (st : Server) : Nat :=
  (st.client.filter fun c => c.sock.isSome).length

/-- The bytes of an entry that are still to be sent: `dataSize` bytes from the cursor. -/
def pendingBytes (c : SelectPrivate) : List Byte :=
  (c.buffer.drop c.data).take c.dataSize

/-- Successive executions of the write branch on entry `i`, one per count in the list, each
with `socketSend` returning that count and a callback `onSelectServerSentOk` that calls
nothing.  The result lists, per execution, how it ended, the state after it and its
events. -/
def drainRun (FD_SETSIZE : Nat) (i : Nat) (sock : Socket) :
    List Nat → Server → List (Branch × Server × List Event)
  | [], _ => []
  | k :: ks, st =>
    let r := writeBranch FD_SETSIZE i sock st (.sent k) []
    r :: drainRun FD_SETSIZE i sock ks r.2.1

/-- The part of the region handed to `socketSend` that was actually sent. -/
def sendRegion : Event → List Byte
  | .socketSend _ region _ rc => region.take rc.toNat
  | _ => []

/-- The region handed to `onSelectServerSentOk`. -/
def sentOkRegion : Event → List Byte
  | .onSelectServerSentOk _ buffer size => buffer.take size
  | _ => []

/-- Whether an event is a callback into the application. -/
def Event.isCallback : Event → Bool
  | .onSelectServerConnect _ => true
  | .onSelectServerDisconnect _ => true
  | .onSelectServerRecvErr _ => true
  | .onSelectServerRecvOk _ _ _ => true
  | .onSelectServerSentErr _ => true
  | .onSelectServerSentOk _ _ _ => true
  | _ => false

/-- The second half of the loop body with the line `if (--nready <= 0) break;`
removed. -/
def writePartNoCounter (FD_SETSIZE : Nat) (env : Env) (wset : fd_set) (i : Nat)
    (sock : Socket) (st : Server) (ev0 : List Event) : Flow × Server × List Event :=
  if FD_ISSET sock.sd wset then
    match writeBranch FD_SETSIZE i sock st (env.send i) (env.onSentOk i) with
    | (.skip, st1, ev1) => (.next, st1, ev0 ++ ev1)
    | (.abort, st1, ev1) => (.abort, st1, ev0 ++ ev1)
    | (.done, st1, ev1) => (.next, st1, ev0 ++ ev1)
    | (.freed, st1, ev1) => (.next, st1, ev0 ++ ev1)
  else (.next, st, ev0)

/-- The loop body for entry `i` without the counter: after a teardown in the read branch
nothing stands between it and the read of the freed socket at line 169. -/
def clientBodyNoCounter (FD_SETSIZE maxChunkSize : Nat) (env : Env) (rset wset : fd_set)
    (i : Nat) (st : Server) : Flow × Server × List Event :=
  match sockAt st i with
  | none => (.next, st, [])
  | some sock =>
    if FD_ISSET sock.sd rset then
      match readBranch FD_SETSIZE maxChunkSize i sock st (env.recv i) (env.onRecvOk i) with
      | (.skip, st1, ev1) => (.next, st1, ev1)
      | (.abort, st1, ev1) => (.abort, st1, ev1)
      | (.done, st1, ev1) => writePartNoCounter FD_SETSIZE env wset i sock st1 ev1
      | (.freed, st1, ev1) => (.undefined, st1, ev1)
    else writePartNoCounter FD_SETSIZE env wset i sock st []

/-- The scan of the table without the counter: every entry is visited. -/
def scanClientsNoCounter (FD_SETSIZE maxChunkSize : Nat) (env : Env) (rset wset : fd_set) :
    Nat → Nat → Server → Flow × Server × List Event
  | 0, _, st => (.next, st, [])
  | n + 1, i, st =>
    match clientBodyNoCounter FD_SETSIZE maxChunkSize env rset wset i st with
    | (.next, st1, ev1) =>
      match scanClientsNoCounter FD_SETSIZE maxChunkSize env rset wset n (i + 1) st1 with
      | (fl, st2, ev2) => (fl, st2, ev1 ++ ev2)
    | (fl, st1, ev1) => (fl, st1, ev1)

/-- The scan without the counter as the tail of one pass. -/
def scanPhaseNoCounter (FD_SETSIZE maxChunkSize : Nat) (env : Env) (rset wset : fd_set)
    (st : Server) (ev0 : List Event) : Loop × Server × List Event :=
  match scanClientsNoCounter FD_SETSIZE maxChunkSize env rset wset FD_SETSIZE 0 st with
  | (fl, st1, ev1) => (fl.toLoop, st1, ev0 ++ ev1)

/-- One pass of the loop of `selectServer` with every `if (--nready <= 0)` exit removed:
after a stored accept, and after each read or write, the scan simply goes on. -/
def selectServerCycleNoCounter (FD_SETSIZE maxChunkSize : Nat) (listen : Socket)
    (env : Env) (st : Server) : Loop × Server × List Event :=
  match env.select with
  | .error errno => if errno = Errno.EINTR then (.wait, st, []) else (.exit, st, [])
  | .ready _ rset wset =>
    if FD_ISSET listen.sd rset then
      match env.accept with
      | .failed =>
        (.wait, st, [.socketAccept listen ⟨-1⟩ (-1), .socketDestroy ⟨-1⟩])
      | .wouldBlock =>
        (.wait, st, [.socketAccept listen ⟨-1⟩ 1, .socketDestroy ⟨-1⟩])
      | .ok sock nonblocking =>
        if nonblocking = false then
          (.exit, st, [.socketAccept listen sock 0, .socketSetBlocking sock (-1),
            .socketClose sock, .socketDestroy sock])
        else
          let i := freeIndex FD_SETSIZE st
          if i = FD_SETSIZE then
            (.wait, st, [.socketAccept listen sock 0, .socketSetBlocking sock 0,
              .socketClose sock, .socketDestroy sock])
          else if fdInRange FD_SETSIZE sock.sd = false then
            (.undefined, { st with client := (storeSock st i sock).client },
              [.socketAccept listen sock 0, .socketSetBlocking sock 0])
          else
            scanPhaseNoCounter FD_SETSIZE maxChunkSize env rset wset (storeSock st i sock)
              [Event.socketAccept listen sock 0, .socketSetBlocking sock 0,
                .onSelectServerConnect sock]
    else scanPhaseNoCounter FD_SETSIZE maxChunkSize env rset wset st []

/-- The bytes still to be sent on entry `i` (none outside the table). -/
def pendingAt (st : Server) (i : Nat) : List Byte :=
  match st.client[i]? with
  | some c => pendingBytes c
  | none => []

/-- The value of `client[i].dataSize` (0 outside the table). -/
def dataSizeAt (st : Server) (i : Nat) : Nat :=
  match st.client[i]? with
  | some c => c.dataSize
  | none => 0

/-- Number of entries `i, i+1, .., i+n-1` of the table whose socket is in the set `s`. -/
def countReady (s : fd_set) (st : Server) : Nat → Nat → Nat
  | 0, _ => 0
  | n + 1, i =>
    (match sockAt st i with
      | some sock => if sock.sd ∈ s then 1 else 0
      | none => 0) + countReady s st n (i + 1)

/-- The states `st` and `st'` agree on the connection `sock` of entry `i`: the entry is
the same and the descriptor has the same membership in both interest sets. -/
def SameConn (i : Nat) (sock : Socket) (st st' : Server) : Prop :=
  st'.client[i]? = st.client[i]? ∧
  (sock.sd ∈ st'.ractual ↔ sock.sd ∈ st.ractual) ∧
  (sock.sd ∈ st'.wactual ↔ sock.sd ∈ st.wactual)

/-- A drain of the connection `sock` of entry `i`, starting in a given state: one
successful execution of the write branch per count, in which `socketSend` returns that
count.  Before each execution the reactor may have done anything that leaves the
connection as it is (`SameConn`), and the callback `onSelectServerSentOk` of an execution
may call `selectSend` on other sockets.  The relation collects the events of the
executions and the state after each of them. -/
inductive Drain (FD_SETSIZE : Nat) (i : Nat) (sock : Socket) :
    Server → List Nat → List Event → List Server → Prop where
  | nil (st : Server) : Drain FD_SETSIZE i sock st [] [] []
  | step {st st1 st2 : Server} {k : Nat} {ks : List Nat} {ev evs : List Event}
      {sts : List Server} (calls : List SendCall) :
    SameConn i sock st st1 →
    (∀ call ∈ calls, call.sock ≠ sock) →
    writeBranch FD_SETSIZE i sock st1 (.sent k) calls = (.done, st2, ev) →
    Drain FD_SETSIZE i sock st2 ks evs sts →
    Drain FD_SETSIZE i sock st (k :: ks) (ev ++ evs) (st2 :: sts)

/-- Whether an event is a send on `sock` or a callback reporting one: `socketSend`,
`onSelectServerSentOk` or `onSelectServerSentErr` for that socket. -/
def Event.isSendOn (sock : Socket) : Event → Bool
  | .socketSend s _ _ _ => decide (s = sock)
  | .onSelectServerSentOk s _ _ => decide (s = sock)
  | .onSelectServerSentErr s => decide (s = sock)
  | _ => false

/-- Whether an event is the callback of a teardown of `sock` in the read branch:
`onSelectServerDisconnect` or `onSelectServerRecvErr` for that socket. -/
def Event.isReadTeardown (sock : Socket) : Event → Bool
  | .onSelectServerDisconnect s => decide (s = sock)
  | .onSelectServerRecvErr s => decide (s = sock)
  | _ => false

/-- Whether an event is a read or a write dispatched for `sock`, or a callback of one. -/
def Event.isDispatchOn (sock : Socket) : Event → Bool
  | .socketRecv s _ _ => decide (s = sock)
  | .socketSend s _ _ _ => decide (s = sock)
  | .onSelectServerDisconnect s => decide (s = sock)
  | .onSelectServerRecvErr s => decide (s = sock)
  | .onSelectServerRecvOk s _ _ => decide (s = sock)
  | .onSelectServerSentErr s => decide (s = sock)
  | .onSelectServerSentOk s _ _ => decide (s = sock)
  | _ => false

/-- An event of the scan agrees with the ready sets of the pass: reads and their
callbacks are for sockets in `rset`, sends and their callbacks for sockets in `wset`. -/
def Event.respects (rset wset : fd_set) : Event → Prop
  | .socketRecv s _ _ => s.sd ∈ rset
  | .onSelectServerDisconnect s => s.sd ∈ rset
  | .onSelectServerRecvErr s => s.sd ∈ rset
  | .onSelectServerRecvOk s _ _ => s.sd ∈ rset
  | .socketSend s _ _ _ => s.sd ∈ wset
  | .onSelectServerSentErr s => s.sd ∈ wset
  | .onSelectServerSentOk s _ _ => s.sd ∈ wset
  | _ => True

/-! ## Concrete states and environments used in the examples -/

/-- Listening socket of the examples: descriptor 3. -/
def exListen : Socket := ⟨3⟩

/-- Initial buffer contents of the examples: zero bytes. -/
def exZero : Nat → Nat → Byte := fun _ _ => 0

/-- A pass in which `select` reports nothing. -/
def exIdle : Env :=
  { select := .ready 0 ∅ ∅
    accept := .failed
    recv := fun _ => .error .EAGAIN
    send := fun _ => .error .EAGAIN
    onRecvOk := fun _ => []
    onSentOk := fun _ => [] }

/-- A pass in which only the listening socket is ready and `socketAccept` returns a
connection with descriptor `sd`. -/
def exAccept (sd : Int) : Env :=
  { exIdle with select := .ready 1 {3} ∅, accept := .ok ⟨sd⟩ true }

/-- Capacity 8 (`FD_SETSIZE`), chunk size 4: the state before the first pass. -/
def exState0 : Server := selectServerInit 8 4 exListen exZero

/-- The state after connection 4 was accepted. -/
def exState1 : Server := (selectServerCycle 8 4 exListen (exAccept 4) exState0).2.1

/-- The state after connections 4 and 5 were accepted: entries 0 and 1 are occupied. -/
def exState2 : Server := (selectServerCycle 8 4 exListen (exAccept 5) exState1).2.1

/-- A pass in which only connection 4 is readable: `socketRecv` stores `bytes` and
`onSelectServerRecvOk` makes the `selectSend` calls `calls`. -/
def exRecv4 (bytes : List Byte) (calls : List SendCall) : Env :=
  { exIdle with
    select := .ready 1 {4} ∅
    recv := fun _ => .received bytes
    onRecvOk := fun _ => calls }

/-- A pass in which only connection 4 is writable and `socketSend` answers `res`. -/
def exSend4 (res : SendResult) : Env :=
  { exIdle with select := .ready 1 ∅ {4}, send := fun _ => res }

/-- What `onSelectServerRecvOk` of `server.c` does when connections 4 and 5 are in its
table: `selectSend` of the received bytes to each of them. -/
def exBroadcast (size : Nat) : List SendCall :=
  [⟨⟨4⟩, .slot 0, size⟩, ⟨⟨5⟩, .slot 0, size⟩]

/-- Connection 4 received `[7, 8]`, which was queued for 4 and 5. -/
def exState3 : Server :=
  (selectServerCycle 8 4 exListen (exRecv4 [7, 8] (exBroadcast 2)) exState2).2.1

/-- Connection 4 took its two bytes; connection 5 has not been writable yet. -/
def exState4 : Server :=
  (selectServerCycle 8 4 exListen (exSend4 (.sent 2)) exState3).2.1

/-- Connection 4 received `[9]`, which was queued for 4 and 5. -/
def exState5 : Server :=
  (selectServerCycle 8 4 exListen (exRecv4 [9] (exBroadcast 1)) exState4).2.1

/-- The state after `selectSend` of `[9]` to connection 5 in `exState4`. -/
def exOverwritten : Server := (selectSend 8 exState4 ⟨5⟩ (.mem [9]) 1).state

/-- From `exState1`: connection 4 received `[7, 8]` and they were queued for 4 itself. -/
def exEcho1 : Server :=
  (selectServerCycle 8 4 exListen (exRecv4 [7, 8] [⟨⟨4⟩, .slot 0, 2⟩]) exState1).2.1

/-- From `exEcho1`: `socketSend` on connection 4 failed with a hard error. -/
def exEcho2 : Server :=
  (selectServerCycle 8 4 exListen (exSend4 (.error (.other 104))) exEcho1).2.1

/-- From `exEcho2`: a new connection was accepted, again with descriptor 4. -/
def exReused : Server := (selectServerCycle 8 4 exListen (exAccept 4) exEcho2).2.1

/-- Capacity 8, chunk size 16: the state after connection 4 was accepted. -/
def exBig1 : Server :=
  (selectServerCycle 8 16 exListen (exAccept 4) (selectServerInit 8 16 exListen exZero)).2.1

/-- A pass in which only connection 4 is readable and `socketRecv` answers `res`. -/
def exRecvResult4 (res : RecvResult) : Env :=
  { exIdle with select := .ready 1 {4} ∅, recv := fun _ => res }

/-- A pass in which the listening socket and connection 4 are reported ready, but
`socketAccept` finds no pending connection (it returns 1); a `socketRecv` on connection 4
would store `[7]`. -/
def exAcceptBlocks : Env :=
  { exIdle with
    select := .ready 2 {3, 4} ∅
    accept := .wouldBlock
    recv := fun _ => .received [7] }

/-- A pass in which connections 4 and 5 are both readable and `socketRecv` returns 0 on
each of them. -/
def exClose45 : Env :=
  { exIdle with select := .ready 2 {4, 5} ∅, recv := fun _ => .received [] }

/-- A pass in which connections 4 and 5 are both readable and `socketRecv` fails on each
of them with a hard error (`ECONNRESET`). -/
def exReset45 : Env :=
  { exIdle with select := .ready 2 {4, 5} ∅, recv := fun _ => .error (.other 104) }

/-- From `exState2`: connection 4 was the only descriptor reported ready, its `socketRecv`
returned 0 and entry 0 was released. -/
def exClosed4 : Server :=
  (selectServerCycle 8 4 exListen (exRecvResult4 (.received [])) exState2).2.1

/-! ## Auxiliary facts: the table, the descriptor sets, the invariant -/

theorem getElem?_set_of_some {α : Type} {l : List α} {i : Nat} {c : α} (c' : α) (j : Nat)
    (h : l[i]? = some c) : (l.set i c')[j]? = if j = i then some c' else l[j]? := by
  have hi : i < l.length := by
    rcases List.getElem?_eq_some.mp h with ⟨hi, _⟩
    exact hi
  rw [List.getElem?_set]
  by_cases hij : i = j
  · subst hij
    simp [hi]
  · have hji : ¬ j = i := fun e => hij e.symm
    simp [hij, hji]

theorem firstIndex_le (p : Nat → Bool) (n i : Nat) : firstIndex p n i ≤ i + n := by
  induction n generalizing i with
  | zero => simp [firstIndex]
  | succ n ih =>
    unfold firstIndex
    split
    · omega
    · have := ih (i + 1)
      omega

theorem firstIndex_ge (p : Nat → Bool) (n i : Nat) : i ≤ firstIndex p n i := by
  induction n generalizing i with
  | zero => simp [firstIndex]
  | succ n ih =>
    unfold firstIndex
    split
    · omega
    · have := ih (i + 1)
      omega

theorem firstIndex_found (p : Nat → Bool) (n i : Nat) (h : firstIndex p n i ≠ i + n) :
    p (firstIndex p n i) = true := by
  induction n generalizing i with
  | zero => simp [firstIndex] at h
  | succ n ih =>
    unfold firstIndex at h ⊢
    by_cases hp : p i = true
    · rw [if_pos hp]
      exact hp
    · rw [if_neg hp] at h ⊢
      apply ih
      intro e
      apply h
      omega

theorem firstIndex_before (p : Nat → Bool) (n i k : Nat) (hik : i ≤ k)
    (hk : k < firstIndex p n i) : p k = false := by
  induction n generalizing i with
  | zero =>
    simp [firstIndex] at hk
    omega
  | succ n ih =>
    unfold firstIndex at hk
    by_cases hp : p i = true
    · simp [hp] at hk
      omega
    · rw [if_neg hp] at hk
      by_cases e : k = i
      · subst e
        simpa using hp
      · exact ih (i + 1) (by omega) hk

theorem firstIndex_eq_end (p : Nat → Bool) (n i : Nat) (h : ∀ k, i ≤ k → k < i + n → p k = false) :
    firstIndex p n i = i + n := by
  induction n generalizing i with
  | zero => simp [firstIndex]
  | succ n ih =>
    unfold firstIndex
    have h0 := h i (le_refl _) (by omega)
    have := ih (i + 1) (fun k h1 h2 => h k (by omega) (by omega))
    rw [h0, if_neg (by simp)]
    omega

theorem sockAt_eq_some {st : Server} {i : Nat} {s : Socket} :
    sockAt st i = some s ↔ ∃ c, st.client[i]? = some c ∧ c.sock = some s := by
  unfold sockAt
  cases h : st.client[i]? with
  | none => simp
  | some c => simp


@[simp]
theorem mem_FD_SET (fd x : Int) (s : fd_set) : fd ∈ FD_SET x s ↔ fd = x ∨ fd ∈ s := by
  simp [FD_SET]

@[simp]
theorem mem_FD_CLR (fd x : Int) (s : fd_set) : fd ∈ FD_CLR x s ↔ fd ≠ x ∧ fd ∈ s := by
  simp [FD_CLR]

@[simp]
theorem FD_ISSET_iff (fd : Int) (s : fd_set) : FD_ISSET fd s = true ↔ fd ∈ s := by
  simp [FD_ISSET]

theorem Socket.eq_of_sd {a b : Socket} (h : a.sd = b.sd) : a = b := by
  cases a
  cases b
  simp_all

theorem getElem?_freeSlot (l : List SelectPrivate) (i j : Nat) :
    (freeSlot l i)[j]? =
      if j = i then (l[i]?).map (fun c => { c with sock := none }) else l[j]? := by
  unfold freeSlot
  cases h : l[i]? with
  | none =>
    by_cases e : j = i
    · subst e
      simp [h]
    · simp [e]
  | some c =>
    simp only [getElem?_set_of_some _ j h, Option.map_some']

theorem length_freeSlot (l : List SelectPrivate) (i : Nat) :
    (freeSlot l i).length = l.length := by
  unfold freeSlot
  cases h : l[i]? <;> simp

theorem sockAt_set {st : Server} {i : Nat} {c : SelectPrivate} (c' : SelectPrivate)
    (r w : fd_set) (j : Nat) (h : st.client[i]? = some c) :
    sockAt ⟨st.client.set i c', r, w⟩ j = if j = i then c'.sock else sockAt st j := by
  unfold sockAt
  simp only [getElem?_set_of_some c' j h]
  by_cases e : j = i <;> simp [e]

theorem sockAt_freeSlot (st : Server) (i : Nat) (r w : fd_set) (j : Nat) :
    sockAt ⟨freeSlot st.client i, r, w⟩ j = if j = i then none else sockAt st j := by
  unfold sockAt
  simp only [getElem?_freeSlot]
  by_cases e : j = i
  · subst e
    cases h : st.client[j]? <;> simp
  · simp [e]

theorem sockAt_sets (st : Server) (r w : fd_set) (j : Nat) :
    sockAt ⟨st.client, r, w⟩ j = sockAt st j := rfl

/-- The update made by `selectSend` keeps the invariant. -/
theorem Inv.selectSend_update {N M : Nat} {listen : Socket} {st : Server}
    (hI : Inv N M listen st) {i : Nat} {c : SelectPrivate} {sock : Socket}
    (hc : st.client[i]? = some c) (hs : c.sock = some sock) (buf : List Byte) {size : Nat}
    (hsize : 0 < size) :
    Inv N M listen
      { client := st.client.set i { c with buffer := buf, data := 0, dataSize := size }
        ractual := FD_CLR sock.sd st.ractual
        wactual := FD_SET sock.sd st.wactual } := by
  have hsock : ∀ j, sockAt (⟨st.client.set i { c with buffer := buf, data := 0, dataSize := size },
      FD_CLR sock.sd st.ractual, FD_SET sock.sd st.wactual⟩ : Server) j = sockAt st j := by
    intro j
    rw [sockAt_set _ _ _ _ hc]
    by_cases e : j = i
    · subst e
      simp [sockAt, hc, hs]
    · simp [e]
  constructor
  · simpa using hI.length_eq
  · intro j d hd
    simp only [getElem?_set_of_some _ j hc] at hd
    by_cases e : j = i
    · subst e
      simp at hd
      subst hd
      exact hI.bufer j c hc
    · simp [e] at hd
      exact hI.bufer j d hd
  · intro fd hr hw
    simp at hr hw
    rcases hw with hw | hw
    · exact hr.1 hw
    · exact hI.disjoint fd hr.2 hw
  · intro a b s ha hb
    rw [hsock] at ha hb
    exact hI.distinct a b s ha hb
  · intro j
    rw [hsock]
    exact hI.listen_out j
  · intro j d s hd hds hw
    simp only [getElem?_set_of_some _ j hc] at hd
    by_cases e : j = i
    · subst e
      simp at hd
      subst hd
      simp
      omega
    · simp [e] at hd
      simp at hw
      rcases hw with hw | hw
      · exfalso
        apply e
        have : s = sock := Socket.eq_of_sd hw
        subst this
        exact hI.distinct j i s (sockAt_eq_some.mpr ⟨d, hd, hds⟩)
          (sockAt_eq_some.mpr ⟨c, hc, hs⟩)
      · exact hI.pending j d s hd hds hw
  · exact hI.listen_in
  · intro j s hj
    rw [hsock] at hj
    exact hI.inrange j s hj

/-- Closing entry `i` and clearing any descriptor from the sets keeps the invariant. -/
theorem Inv.teardown {N M : Nat} {listen : Socket} {st : Server}
    (hI : Inv N M listen st) (i : Nat) (r w : fd_set) (hr : r ⊆ st.ractual)
    (hw : w ⊆ st.wactual) :
    Inv N M listen { client := freeSlot st.client i, ractual := r, wactual := w } := by
  constructor
  · simpa [length_freeSlot] using hI.length_eq
  · intro j d hd
    simp only [getElem?_freeSlot] at hd
    by_cases e : j = i
    · subst e
      cases h : st.client[j]? with
      | none => simp [h] at hd
      | some c0 =>
        simp [h] at hd
        subst hd
        exact hI.bufer j c0 h
    · simp [e] at hd
      exact hI.bufer j d hd
  · intro fd h1 h2
    exact hI.disjoint fd (hr h1) (hw h2)
  · intro a b s ha hb
    rw [sockAt_freeSlot] at ha hb
    by_cases ea : a = i
    · simp [ea] at ha
    · by_cases eb : b = i
      · simp [eb] at hb
      · simp [ea] at ha
        simp [eb] at hb
        exact hI.distinct a b s ha hb
  · intro j
    rw [sockAt_freeSlot]
    by_cases e : j = i
    · simp [e]
    · simp [e]
      exact hI.listen_out j
  · intro j d s hd hds h2
    simp only [getElem?_freeSlot] at hd
    by_cases e : j = i
    · subst e
      cases h : st.client[j]? with
      | none => simp [h] at hd
      | some c0 =>
        simp [h] at hd
        subst hd
        simp at hds
    · simp [e] at hd
      exact hI.pending j d s hd hds (hw h2)
  · exact hI.listen_in
  · intro j s hj
    rw [sockAt_freeSlot] at hj
    by_cases e : j = i
    · simp [e] at hj
    · simp [e] at hj
      exact hI.inrange j s hj

/-- Storing bytes in the buffer of entry `i` keeps the invariant. -/
theorem Inv.buffer_update {N M : Nat} {listen : Socket} {st : Server}
    (hI : Inv N M listen st) {i : Nat} {c : SelectPrivate}
    (hc : st.client[i]? = some c) (buf : List Byte) :
    Inv N M listen { st with client := st.client.set i { c with buffer := buf } } := by
  have hsock : ∀ j, sockAt (⟨st.client.set i { c with buffer := buf },
      st.ractual, st.wactual⟩ : Server) j = sockAt st j := by
    intro j
    rw [sockAt_set _ _ _ _ hc]
    by_cases e : j = i
    · subst e
      simp [sockAt, hc]
    · simp [e]
  constructor
  · simpa using hI.length_eq
  · intro j d hd
    simp only [getElem?_set_of_some _ j hc] at hd
    by_cases e : j = i
    · subst e
      simp at hd
      subst hd
      exact hI.bufer j c hc
    · simp [e] at hd
      exact hI.bufer j d hd
  · exact hI.disjoint
  · intro a b s ha hb
    rw [hsock] at ha hb
    exact hI.distinct a b s ha hb
  · intro j
    rw [hsock]
    exact hI.listen_out j
  · intro j d s hd hds hw
    simp only [getElem?_set_of_some _ j hc] at hd
    by_cases e : j = i
    · subst e
      simp at hd
      subst hd
      exact hI.pending j c s hc hds hw
    · simp [e] at hd
      exact hI.pending j d s hd hds hw
  · exact hI.listen_in
  · intro j s hj
    rw [hsock] at hj
    exact hI.inrange j s hj

/-- Advancing the cursor of entry `i` after a send keeps the invariant; when nothing
remains the socket moves from the write set to the read set. -/
theorem Inv.drain_update {N M : Nat} {listen : Socket} {st : Server}
    (hI : Inv N M listen st) {i : Nat} {c : SelectPrivate} {sock : Socket}
    (hc : st.client[i]? = some c) (hs : ∀ s, c.sock = some s → s = sock) (pos size : Nat) :
    (size = 0 → Inv N M listen
      { client := st.client.set i { c with data := pos, dataSize := size }
        ractual := FD_SET sock.sd st.ractual
        wactual := FD_CLR sock.sd st.wactual }) ∧
    (size ≠ 0 → Inv N M listen
      { client := st.client.set i { c with data := pos, dataSize := size }
        ractual := st.ractual
        wactual := st.wactual }) := by
  have hsock : ∀ r w j, sockAt (⟨st.client.set i { c with data := pos, dataSize := size },
      r, w⟩ : Server) j = sockAt st j := by
    intro r w j
    rw [sockAt_set _ _ _ _ hc]
    by_cases e : j = i
    · subst e
      simp [sockAt, hc]
    · simp [e]
  have hbuf : ∀ (j : Nat) (d : SelectPrivate), (st.client.set i { c with data := pos, dataSize := size })[j]? = some d →
      d.buferSize = M := by
    intro j d hd
    simp only [getElem?_set_of_some _ j hc] at hd
    by_cases e : j = i
    · subst e
      simp at hd
      subst hd
      exact hI.bufer j c hc
    · simp [e] at hd
      exact hI.bufer j d hd
  constructor
  · intro h0
    constructor
    · simpa using hI.length_eq
    · exact hbuf
    · intro fd hr hw
      simp at hr hw
      rcases hr with hr | hr
      · exact hw.1 hr
      · exact hI.disjoint fd hr hw.2
    · intro a b s ha hb
      rw [hsock] at ha hb
      exact hI.distinct a b s ha hb
    · intro j
      rw [hsock]
      exact hI.listen_out j
    · intro j d s hd hds hw
      simp only [getElem?_set_of_some _ j hc] at hd
      simp at hw
      by_cases e : j = i
      · subst e
        simp at hd
        subst hd
        simp at hds
        have := hs s hds
        subst this
        exact absurd rfl hw.1
      · simp [e] at hd
        exact hI.pending j d s hd hds hw.2
    · exact hI.listen_in
    · intro j s hj
      rw [hsock] at hj
      exact hI.inrange j s hj
  · intro h0
    constructor
    · simpa using hI.length_eq
    · exact hbuf
    · exact hI.disjoint
    · intro a b s ha hb
      rw [hsock] at ha hb
      exact hI.distinct a b s ha hb
    · intro j
      rw [hsock]
      exact hI.listen_out j
    · intro j d s hd hds hw
      simp only [getElem?_set_of_some _ j hc] at hd
      by_cases e : j = i
      · subst e
        simp at hd
        subst hd
        simpa using h0
      · simp [e] at hd
        exact hI.pending j d s hd hds hw
    · exact hI.listen_in
    · intro j s hj
      rw [hsock] at hj
      exact hI.inrange j s hj

/-- Storing a socket whose descriptor is not in use and has a bit in the sets keeps the
invariant. -/
theorem Inv.storeSock {N M : Nat} {listen : Socket} {st : Server}
    (hI : Inv N M listen st) {i : Nat} {c : SelectPrivate} {sock : Socket}
    (hc : st.client[i]? = some c) (hne : sock ≠ listen)
    (hfresh : ∀ j, sockAt st j ≠ some sock) (hin : fdInRange N sock.sd = true) :
    Inv N M listen (SelectUnix.storeSock st i sock) := by
  unfold SelectUnix.storeSock
  simp only [hc]
  have hsock : ∀ j, sockAt (⟨st.client.set i { c with sock := some sock },
      FD_SET sock.sd st.ractual, FD_CLR sock.sd st.wactual⟩ : Server) j =
      if j = i then some sock else sockAt st j := by
    intro j
    rw [sockAt_set _ _ _ _ hc]
  constructor
  · simpa using hI.length_eq
  · intro j d hd
    simp only [getElem?_set_of_some _ j hc] at hd
    by_cases e : j = i
    · subst e
      simp at hd
      subst hd
      exact hI.bufer j c hc
    · simp [e] at hd
      exact hI.bufer j d hd
  · intro fd hr hw
    simp at hr hw
    rcases hr with hr | hr
    · exact hw.1 hr
    · exact hI.disjoint fd hr hw.2
  · intro a b s ha hb
    rw [hsock] at ha hb
    by_cases ea : a = i
    · by_cases eb : b = i
      · omega
      · simp [ea] at ha
        simp [eb] at hb
        subst ha
        exact absurd hb (hfresh b)
    · by_cases eb : b = i
      · simp [ea] at ha
        simp [eb] at hb
        subst hb
        exact absurd ha (hfresh a)
      · simp [ea] at ha
        simp [eb] at hb
        exact hI.distinct a b s ha hb
  · intro j
    rw [hsock]
    by_cases e : j = i
    · simp [e]
      exact hne
    · simp [e]
      exact hI.listen_out j
  · intro j d s hd hds hw
    simp only [getElem?_set_of_some _ j hc] at hd
    simp at hw
    by_cases e : j = i
    · subst e
      simp at hd
      subst hd
      simp at hds
      subst hds
      exact absurd rfl hw.1
    · simp [e] at hd
      exact hI.pending j d s hd hds hw.2
  · exact hI.listen_in
  · intro j s hj
    rw [hsock] at hj
    by_cases e : j = i
    · simp [e] at hj
      subst hj
      exact hin
    · simp [e] at hj
      exact hI.inrange j s hj

/-- The two ways a call of `selectSend` ends. -/
theorem selectSend_cases (N : Nat) (st : Server) (sock : Socket) (buffer : BufPtr)
    (size : Nat) :
    selectSend N st sock buffer size = .assertFailed st ∨
    ∃ i c, i < N ∧ st.client[i]? = some c ∧ c.sock = some sock ∧ 0 < size ∧
      (∀ k, k < i → sockAt st k ≠ some sock) ∧
      selectSend N st sock buffer size = .ok
        { client := st.client.set i
            { c with
              buffer := if buffer = BufPtr.slot i then c.buffer
                else memmove c.buffer (deref st buffer) size
              data := 0
              dataSize := size }
          ractual := FD_CLR sock.sd st.ractual
          wactual := FD_SET sock.sd st.wactual } := by
  unfold selectSend
  cases h0 : st.client[0]? with
  | none => exact Or.inl rfl
  | some c0 =>
    by_cases hsz : 0 < size ∧ size ≤ c0.buferSize
    · by_cases hi : firstIndex (fun k => decide (sockAt st k = some sock)) N 0 = N
      · left
        simp [hsz, hi]
      · cases hc : st.client[firstIndex (fun k => decide (sockAt st k = some sock)) N 0]? with
        | none =>
          left
          simp [hsz, hi, hc]
        | some c =>
          right
          have hp := firstIndex_found (fun k => decide (sockAt st k = some sock)) N 0
            (by simpa using hi)
          simp only [decide_eq_true_eq] at hp
          rcases sockAt_eq_some.mp hp with ⟨c', hc', hs'⟩
          rw [hc] at hc'
          simp at hc'
          subst hc'
          refine ⟨_, c, ?_, hc, hs', hsz.1, ?_, ?_⟩
          · have := firstIndex_le (fun k => decide (sockAt st k = some sock)) N 0
            omega
          · intro k hk
            have := firstIndex_before (fun k => decide (sockAt st k = some sock)) N 0 k
              (Nat.zero_le _) hk
            simpa using this
          · simp [hsz, hi, hc]
    · left
      simp [hsz]

theorem selectSend_sockAt (N : Nat) (st : Server) (sock : Socket) (buffer : BufPtr)
    (size : Nat) (j : Nat) :
    sockAt (selectSend N st sock buffer size).state j = sockAt st j := by
  rcases selectSend_cases N st sock buffer size with h | ⟨i, c, _, hc, _, _, _, h⟩
  · rw [h]
    rfl
  · rw [h]
    simp only [Outcome.state]
    rw [sockAt_set _ _ _ _ hc]
    by_cases e : j = i
    · simp [e, sockAt, hc]
    · simp [e]

theorem selectSend_inv {N M : Nat} {listen : Socket} {st : Server}
    (hI : Inv N M listen st) (sock : Socket) (buffer : BufPtr) (size : Nat) :
    Inv N M listen (selectSend N st sock buffer size).state := by
  rcases selectSend_cases N st sock buffer size with h | ⟨i, c, _, hc, hs, hsz, _, h⟩
  · rw [h]
    exact hI
  · rw [h]
    exact hI.selectSend_update hc hs _ hsz

theorem runCallback_sockAt (N : Nat) (calls : List SendCall) (st : Server) (j : Nat) :
    sockAt (runCallback N calls st).state j = sockAt st j := by
  induction calls generalizing st with
  | nil => rfl
  | cons c cs ih =>
    unfold runCallback
    have h := selectSend_sockAt N st c.sock c.buffer c.size j
    cases hr : selectSend N st c.sock c.buffer c.size with
    | ok st1 =>
      rw [hr] at h
      simp only [Outcome.state] at h
      simp only
      rw [ih st1, h]
    | assertFailed st1 =>
      rw [hr] at h
      exact h

theorem runCallback_inv {N M : Nat} {listen : Socket} (calls : List SendCall) {st : Server}
    (hI : Inv N M listen st) : Inv N M listen (runCallback N calls st).state := by
  induction calls generalizing st with
  | nil => exact hI
  | cons c cs ih =>
    unfold runCallback
    have h := selectSend_inv hI c.sock c.buffer c.size
    cases hr : selectSend N st c.sock c.buffer c.size with
    | ok st1 =>
      rw [hr] at h
      exact ih h
    | assertFailed st1 =>
      rw [hr] at h
      exact h

theorem FD_CLR_subset (fd : Int) (s : fd_set) : FD_CLR fd s ⊆ s := by
  intro x hx
  simp at hx
  exact hx.2

theorem Outcome.state_ok_of_eq {o : Outcome} {st : Server} (h : o = .ok st) : o.state = st := by
  rw [h]
  rfl

theorem Outcome.state_failed_of_eq {o : Outcome} {st : Server} (h : o = .assertFailed st) :
    o.state = st := by
  rw [h]
  rfl

theorem recvInto_inv {N M : Nat} {listen : Socket} {st : Server}
    (hI : Inv N M listen st) (i : Nat) (bytes : List Byte) :
    Inv N M listen (recvInto st i bytes) := by
  unfold recvInto
  cases hc : st.client[i]? with
  | none => exact hI
  | some c => exact hI.buffer_update hc _

theorem recvInto_sockAt (st : Server) (i : Nat) (bytes : List Byte) (k : Nat) :
    sockAt (recvInto st i bytes) k = sockAt st k := by
  unfold recvInto
  cases hc : st.client[i]? with
  | none => rfl
  | some c =>
    simp only
    rw [sockAt_set _ _ _ _ hc]
    by_cases e : k = i
    · simp [e, sockAt, hc]
    · simp [e]

theorem readBranch_inv {N M : Nat} {listen : Socket} {st : Server}
    (hI : Inv N M listen st) (i : Nat) (sock : Socket) (res : RecvResult)
    (calls : List SendCall) :
    Inv N M listen (readBranch N M i sock st res calls).2.1 := by
  unfold readBranch
  cases res with
  | error errno =>
    dsimp only
    by_cases ht : errno.transient = true
    · rw [if_pos ht]
      exact hI
    · rw [if_neg ht]
      exact hI.teardown i _ _ (FD_CLR_subset _ _) (FD_CLR_subset _ _)
  | received bytes =>
    dsimp only
    have h1 := recvInto_inv hI i bytes
    by_cases h0 : bytes.length = 0
    · rw [if_pos h0]
      exact h1.teardown i _ _ (FD_CLR_subset _ _) (FD_CLR_subset _ _)
    · rw [if_neg h0]
      have h2 := runCallback_inv calls h1
      split
      · rename_i st2 heq
        rw [Outcome.state_ok_of_eq heq] at h2
        exact h2
      · rename_i st2 heq
        rw [Outcome.state_failed_of_eq heq] at h2
        exact h2

theorem readBranch_sockAt (N M : Nat) (st : Server) (i : Nat) (sock : Socket)
    (res : RecvResult) (calls : List SendCall) (j : Nat) (hj : j ≠ i) :
    sockAt (readBranch N M i sock st res calls).2.1 j = sockAt st j := by
  unfold readBranch
  cases res with
  | error errno =>
    dsimp only
    by_cases ht : errno.transient = true
    · rw [if_pos ht]
    · rw [if_neg ht]
      dsimp only
      rw [sockAt_freeSlot]
      simp [hj]
  | received bytes =>
    dsimp only
    have h1 := recvInto_sockAt st i bytes
    by_cases h0 : bytes.length = 0
    · rw [if_pos h0]
      dsimp only
      rw [sockAt_freeSlot]
      simp only [hj, if_false]
      exact h1 j
    · rw [if_neg h0]
      have h2 := runCallback_sockAt N calls (recvInto st i bytes) j
      rw [h1 j] at h2
      split
      · rename_i st2 heq
        rw [Outcome.state_ok_of_eq heq] at h2
        exact h2
      · rename_i st2 heq
        rw [Outcome.state_failed_of_eq heq] at h2
        exact h2

theorem writeBranch_inv {N M : Nat} {listen : Socket} {st : Server}
    (hI : Inv N M listen st) (i : Nat) (sock : Socket)
    (hs : ∀ s, sockAt st i = some s → s = sock) (res : SendResult) (calls : List SendCall) :
    Inv N M listen (writeBranch N i sock st res calls).2.1 := by
  unfold writeBranch
  cases hc : st.client[i]? with
  | none => exact hI
  | some c =>
    simp only
    cases res with
    | error errno =>
      by_cases ht : errno.transient = true
      · simpa [ht] using hI
      · simp only [ht]
        exact hI.teardown i _ _ (Finset.Subset.refl _) (FD_CLR_subset _ _)
    | sent rc =>
      by_cases hge : c.dataSize ≥ rc
      · simp only [hge, not_true_eq_false, if_false, if_true]
        have h2 := runCallback_inv calls hI
        have h3 := runCallback_sockAt N calls st i
        split
        · rename_i st1 heq
          rw [Outcome.state_failed_of_eq heq] at h2
          exact h2
        · rename_i st1 heq
          rw [Outcome.state_ok_of_eq heq] at h2 h3
          cases hc1 : st1.client[i]? with
          | none => exact h2
          | some c1 =>
            have hs1 : ∀ s, c1.sock = some s → s = sock := by
              intro s hs'
              apply hs s
              rw [← h3]
              exact sockAt_eq_some.mpr ⟨c1, hc1, hs'⟩
            have hd := h2.drain_update hc1 hs1 (c1.data + rc) (usub c1.dataSize rc)
            simp only
            by_cases hz : usub c1.dataSize rc = 0
            · simp only [hz, if_true]
              have := hd.1 hz
              rw [hz] at this
              exact this
            · simp only [hz, if_false]
              exact hd.2 hz
      · simp only [hge, not_false_eq_true, if_true]
        exact hI

theorem writeBranch_sockAt (N : Nat) (st : Server) (i : Nat) (sock : Socket)
    (res : SendResult) (calls : List SendCall) (j : Nat) (hj : j ≠ i) :
    sockAt (writeBranch N i sock st res calls).2.1 j = sockAt st j := by
  unfold writeBranch
  cases hc : st.client[i]? with
  | none => rfl
  | some c =>
    simp only
    cases res with
    | error errno =>
      dsimp only
      by_cases ht : errno.transient = true
      · rw [if_pos ht]
      · rw [if_neg ht]
        dsimp only
        rw [sockAt_freeSlot]
        simp [hj]
    | sent rc =>
      by_cases hge : c.dataSize ≥ rc
      · simp only [hge, not_true_eq_false, if_false, if_true]
        have h3 := runCallback_sockAt N calls st j
        split
        · rename_i st1 heq
          rw [Outcome.state_failed_of_eq heq] at h3
          exact h3
        · rename_i st1 heq
          rw [Outcome.state_ok_of_eq heq] at h3
          cases hc1 : st1.client[i]? with
          | none => exact h3
          | some c1 =>
            simp only
            by_cases hz : usub c1.dataSize rc = 0
            · simp only [hz, if_true]
              rw [sockAt_set _ _ _ _ hc1]
              simp [hj, h3]
            · simp only [hz, if_false]
              rw [sockAt_set _ _ _ _ hc1]
              simp [hj, h3]
      · simp only [hge, not_false_eq_true, if_true]

theorem readBranch_sockAt_self (N M : Nat) (st : Server) (i : Nat) (sock : Socket)
    (res : RecvResult) (calls : List SendCall) (s : Socket)
    (h : sockAt (readBranch N M i sock st res calls).2.1 i = some s) :
    sockAt st i = some s := by
  unfold readBranch at h
  cases res with
  | error errno =>
    dsimp only at h
    by_cases ht : errno.transient = true
    · rw [if_pos ht] at h
      exact h
    · rw [if_neg ht] at h
      dsimp only at h
      rw [sockAt_freeSlot] at h
      simp at h
  | received bytes =>
    dsimp only at h
    by_cases h0 : bytes.length = 0
    · rw [if_pos h0] at h
      dsimp only at h
      rw [sockAt_freeSlot] at h
      simp at h
    · rw [if_neg h0] at h
      have h2 := runCallback_sockAt N calls (recvInto st i bytes) i
      rw [recvInto_sockAt] at h2
      rw [← h2]
      revert h
      split
      · rename_i st2 heq
        rw [Outcome.state_ok_of_eq heq]
        exact id
      · rename_i st2 heq
        rw [Outcome.state_failed_of_eq heq]
        exact id

theorem writePart_inv {N M : Nat} {listen : Socket} {st : Server}
    (hI : Inv N M listen st) (env : Env) (wset : fd_set) (i : Nat) (sock : Socket)
    (hs : ∀ s, sockAt st i = some s → s = sock) (nready : Int) (ev0 : List Event) :
    Inv N M listen (writePart N env wset i sock st nready ev0).2.1 := by
  unfold writePart
  have h := writeBranch_inv hI i sock hs (env.send i) (env.onSentOk i)
  split
  · split
    · rename_i heq
      rw [heq] at h
      exact h
    · rename_i heq
      rw [heq] at h
      exact h
    · rename_i heq
      rw [heq] at h
      split
      · exact h
      · exact h
    · rename_i heq
      rw [heq] at h
      split
      · exact h
      · exact h
  · exact hI

theorem writePart_sockAt (N : Nat) (st : Server) (env : Env) (wset : fd_set) (i : Nat)
    (sock : Socket) (nready : Int) (ev0 : List Event) (j : Nat) (hj : j ≠ i) :
    sockAt (writePart N env wset i sock st nready ev0).2.1 j = sockAt st j := by
  unfold writePart
  have h := writeBranch_sockAt N st i sock (env.send i) (env.onSentOk i) j hj
  split
  · split
    · rename_i heq
      rw [heq] at h
      exact h
    · rename_i heq
      rw [heq] at h
      exact h
    · rename_i heq
      rw [heq] at h
      split
      · exact h
      · exact h
    · rename_i heq
      rw [heq] at h
      split
      · exact h
      · exact h
  · rfl

theorem clientBody_inv {N M : Nat} {listen : Socket} {st : Server}
    (hI : Inv N M listen st) (env : Env) (rset wset : fd_set) (i : Nat) (nready : Int) :
    Inv N M listen (clientBody N M env rset wset i st nready).2.1 := by
  unfold clientBody
  cases hs : sockAt st i with
  | none => exact hI
  | some sock =>
    dsimp only
    have hs0 : ∀ s, sockAt st i = some s → s = sock := by
      intro s h
      rw [hs] at h
      simpa using h.symm
    split
    · have h := readBranch_inv hI i sock (env.recv i) (env.onRecvOk i)
      have h1 := readBranch_sockAt_self N M st i sock (env.recv i) (env.onRecvOk i)
      split
      · rename_i heq
        rw [heq] at h
        exact h
      · rename_i heq
        rw [heq] at h
        exact h
      · rename_i heq
        rw [heq] at h h1
        split
        · exact h
        · exact writePart_inv h env wset i sock (fun s hs1 => hs0 s (h1 s hs1)) _ _
      · rename_i heq
        rw [heq] at h
        split
        · exact h
        · exact h
    · exact writePart_inv hI env wset i sock hs0 _ _

theorem clientBody_sockAt (N M : Nat) (st : Server) (env : Env) (rset wset : fd_set)
    (i : Nat) (nready : Int) (j : Nat) (hj : j ≠ i) :
    sockAt (clientBody N M env rset wset i st nready).2.1 j = sockAt st j := by
  unfold clientBody
  cases hs : sockAt st i with
  | none => rfl
  | some sock =>
    dsimp only
    split
    · have h := readBranch_sockAt N M st i sock (env.recv i) (env.onRecvOk i) j hj
      split
      · rename_i heq
        rw [heq] at h
        exact h
      · rename_i heq
        rw [heq] at h
        exact h
      · rename_i heq
        rw [heq] at h
        split
        · exact h
        · rw [writePart_sockAt _ _ _ _ _ _ _ _ _ hj]
          exact h
      · rename_i heq
        rw [heq] at h
        split
        · exact h
        · exact h
    · exact writePart_sockAt _ _ _ _ _ _ _ _ _ hj

theorem scanClients_inv {N M : Nat} {listen : Socket} (env : Env) (rset wset : fd_set)
    (n : Nat) : ∀ (i : Nat) (st : Server) (nready : Int), Inv N M listen st →
    Inv N M listen (scanClients N M env rset wset n i st nready).2.1 := by
  induction n with
  | zero =>
    intro i st nready hI
    exact hI
  | succ n ih =>
    intro i st nready hI
    unfold scanClients
    have h := clientBody_inv hI env rset wset i nready
    split
    · rename_i st1 nready1 ev1 heq
      rw [heq] at h
      exact ih (i + 1) st1 nready1 h
    · rename_i fl st1 x ev1 hne heq
      rw [heq] at h
      exact h

theorem scanPhase_inv {N M : Nat} {listen : Socket} (env : Env) (rset wset : fd_set)
    {st : Server} (hI : Inv N M listen st) (nready : Int) (ev0 : List Event) :
    Inv N M listen (scanPhase N M env rset wset st nready ev0).2.1 :=
  scanClients_inv env rset wset N 0 st nready hI

theorem isFree_iff (st : Server) (k : Nat) :
    isFree st k = true ↔ ∃ c, st.client[k]? = some c ∧ c.sock = none := by
  unfold isFree
  cases st.client[k]? with
  | none => simp
  | some c => simp

theorem freeIndex_spec (N : Nat) (st : Server) (h : freeIndex N st ≠ N) :
    ∃ c, st.client[freeIndex N st]? = some c ∧ c.sock = none := by
  unfold freeIndex at h ⊢
  have hp := firstIndex_found (isFree st) N 0 (by simpa using h)
  exact (isFree_iff st _).mp hp

theorem selectServerInit_inv (N M : Nat) (listen : Socket) (garbage : Nat → Nat → Byte)
    (hlisten : fdInRange N listen.sd = true) :
    Inv N M listen (selectServerInit N M listen garbage) := by
  have hsock : ∀ j, sockAt (selectServerInit N M listen garbage) j = none := by
    intro j
    unfold sockAt selectServerInit
    simp only [List.getElem?_map]
    cases (List.range N)[j]? <;> simp
  constructor
  · simp [selectServerInit]
  · intro i c hc
    simp only [selectServerInit, List.getElem?_map] at hc
    cases h : (List.range N)[i]? with
    | none => simp [h] at hc
    | some k =>
      simp [h] at hc
      subst hc
      rfl
  · intro fd _ hw
    simp [selectServerInit, FD_ZERO] at hw
  · intro a b s ha
    rw [hsock] at ha
    simp at ha
  · intro j
    rw [hsock]
    simp
  · intro i c s _ _ hw
    simp [selectServerInit, FD_ZERO] at hw
  · exact hlisten
  · intro j s hj
    rw [hsock] at hj
    simp at hj

/-- A pass that goes back to `select` keeps the invariant. -/
theorem selectServerCycle_inv {N M : Nat} {listen : Socket} {st : Server}
    (hI : Inv N M listen st) (env : Env) (hv : env.Valid listen st)
    (hw : (selectServerCycle N M listen env st).1 = .wait) :
    Inv N M listen (selectServerCycle N M listen env st).2.1 := by
  revert hw
  unfold selectServerCycle
  cases hsel : env.select with
  | error errno =>
    dsimp only
    split <;> exact fun _ => hI
  | ready rc rset wset =>
    dsimp only
    split
    · cases hacc : env.accept with
      | failed => exact fun _ => hI
      | wouldBlock => exact fun _ => hI
      | ok sock nonblocking =>
        dsimp only
        split
        · exact fun _ => hI
        · split
          · exact fun _ => hI
          · rename_i hfree
            split
            · intro hw
              cases hw
            · rename_i hin
              rcases freeIndex_spec N st hfree with ⟨c, hc, _⟩
              have hv2 := hv.2
              rw [hacc] at hv2
              have h1 := hI.storeSock hc hv2.1 (fun j hj => by
                rcases sockAt_eq_some.mp hj with ⟨d, hd, hds⟩
                exact hv2.2 d (List.getElem?_mem hd) hds) (by simpa using hin)
              split
              · exact fun _ => h1
              · exact fun _ => scanPhase_inv env rset wset h1 _ _
    · exact fun _ => scanPhase_inv env rset wset hI _ _

/-- Every reachable state satisfies the invariant. -/
theorem Reachable.inv {N M : Nat} {listen : Socket} {st : Server}
    (h : Reachable N M listen st) : Inv N M listen st := by
  induction h with
  | init garbage hlisten => exact selectServerInit_inv N M listen garbage hlisten
  | cycle env ev _ hv hstep ih =>
    have := selectServerCycle_inv ih env hv (by rw [hstep])
    rw [hstep] at this
    exact this

/-! ## Properties of the reactor -/

/-! ### C1 and C2: exclusive interests, capacity -/

theorem triple_eta_wait (x : Loop × Server × List Event) (h : x.1 = .wait) :
    x = (.wait, x.2.1, x.2.2) := by
  rcases x with ⟨a, b, c⟩
  simp only at h
  rw [h]

theorem exState1_reachable : Reachable 8 4 exListen exState1 :=
  Reachable.cycle (exAccept 4) _ (Reachable.init exZero (by decide))
    ⟨⟨by decide, by decide, by decide⟩, ⟨by decide, by decide⟩⟩
    (triple_eta_wait _ (by decide))

theorem exState2_reachable : Reachable 8 4 exListen exState2 :=
  Reachable.cycle (exAccept 5) _ exState1_reachable
    ⟨⟨by decide, by decide, by decide⟩, ⟨by decide, by decide⟩⟩
    (triple_eta_wait _ (by decide))

/-- C1: in every state the reactor reaches at the top of its loop, and in every state
that further `selectSend` calls produce from it, no occupied entry has its descriptor in
both the read-interest set `ractual` and the write-interest set `wactual`. -/
theorem C1_read_write_interest_exclusive (N M : Nat) (listen : Socket) (st : Server)
    (h : Reachable N M listen st) :
    (∀ i sock, sockAt st i = some sock →
      ¬ (sock.sd ∈ st.ractual ∧ sock.sd ∈ st.wactual)) ∧
    (∀ calls i sock, sockAt (runCallback N calls st).state i = some sock →
      ¬ (sock.sd ∈ (runCallback N calls st).state.ractual ∧
         sock.sd ∈ (runCallback N calls st).state.wactual)) := by
  constructor
  · intro i sock _ hrw
    exact h.inv.disjoint _ hrw.1 hrw.2
  · intro calls i sock _ hrw
    exact (runCallback_inv calls h.inv).disjoint _ hrw.1 hrw.2

/-- C1 at the state with connections 4 and 5: entry 0 holds connection 4, which is not in
both sets. -/
theorem C1_read_write_interest_exclusive_witness :
    Reachable 8 4 exListen exState2 ∧ sockAt exState2 0 = some ⟨4⟩ ∧
    ¬ ((4 : Int) ∈ exState2.ractual ∧ (4 : Int) ∈ exState2.wactual) :=
  ⟨exState2_reachable, by decide,
    (C1_read_write_interest_exclusive 8 4 exListen exState2 exState2_reachable).1 0 ⟨4⟩
      (by decide)⟩

theorem countReady_congr (s : fd_set) (st st' : Server) (n : Nat) :
    ∀ i, (∀ j, i ≤ j → sockAt st' j = sockAt st j) →
      countReady s st' n i = countReady s st n i := by
  induction n with
  | zero =>
    intro i _
    rfl
  | succ n ih =>
    intro i h
    unfold countReady
    rw [h i (le_refl _), ih (i + 1) (fun j hj => h j (by omega))]

theorem countReady_erase (s : fd_set) (st : Server) (x : Int) (n : Nat) :
    ∀ i, (∀ j sock, i ≤ j → sockAt st j = some sock → sock.sd ≠ x) →
      countReady (s.erase x) st n i = countReady s st n i := by
  induction n with
  | zero =>
    intro i _
    rfl
  | succ n ih =>
    intro i h
    unfold countReady
    rw [ih (i + 1) (fun j sock hj hs => h j sock (by omega) hs)]
    congr 1
    cases hs : sockAt st i with
    | none => rfl
    | some sock =>
      have := h i sock (le_refl _) hs
      simp [this]

/-- With pairwise distinct sockets in the table, none of them the listening one, the
entries whose socket is in a set are at most as many as the descriptors of the set other
than the listening one. -/
theorem countReady_le_card (listen : Socket) (st : Server)
    (hdist : ∀ i j s, sockAt st i = some s → sockAt st j = some s → i = j)
    (hlisten : ∀ i, sockAt st i ≠ some listen) (n : Nat) :
    ∀ (s : fd_set) (i : Nat), countReady s st n i ≤ (s.erase listen.sd).card := by
  induction n with
  | zero =>
    intro s i
    simp [countReady]
  | succ n ih =>
    intro s i
    unfold countReady
    cases hs : sockAt st i with
    | none =>
      simp only [Nat.zero_add]
      exact ih s (i + 1)
    | some sock =>
      dsimp only
      by_cases hm : sock.sd ∈ s
      · rw [if_pos hm]
        have hne : sock.sd ≠ listen.sd := by
          intro e
          apply hlisten i
          rw [hs, Socket.eq_of_sd e]
        have hlater : ∀ j sock', i + 1 ≤ j → sockAt st j = some sock' → sock'.sd ≠ sock.sd := by
          intro j sock' hj hs' e
          have := Socket.eq_of_sd e
          subst this
          have := hdist i j sock' hs hs'
          omega
        rw [← countReady_erase s st sock.sd n (i + 1) hlater]
        have h1 := ih (s.erase sock.sd) (i + 1)
        have hmem : sock.sd ∈ s.erase listen.sd := Finset.mem_erase.mpr ⟨hne, hm⟩
        have h2 : ((s.erase sock.sd).erase listen.sd).card + 1 = (s.erase listen.sd).card := by
          rw [Finset.erase_right_comm]
          exact Finset.card_erase_add_one hmem
        omega
      · rw [if_neg hm]
        simp only [Nat.zero_add]
        exact ih s (i + 1)

/-- The occupied entries of the table, counted by index: when every socket of the table has
its descriptor in `s`, `countReady s` over a stretch of the table is the number of
occupied entries in it. -/
theorem countReady_of_all (s : fd_set) (st : Server)
    (hall : ∀ i sock, sockAt st i = some sock → sock.sd ∈ s) :
    ∀ (l : List SelectPrivate) (i : Nat), (∀ k, st.client[i + k]? = l[k]?) →
      countReady s st l.length i = (l.filter fun c => c.sock.isSome).length := by
  intro l
  induction l with
  | nil =>
    intro i _
    rfl
  | cons c l ih =>
    intro i h
    have h0 : st.client[i]? = some c := by
      have := h 0
      simpa using this
    have hrest : ∀ k, st.client[i + 1 + k]? = l[k]? := by
      intro k
      have := h (k + 1)
      rw [show i + 1 + k = i + (k + 1) by omega]
      simpa using this
    have hs : sockAt st i = c.sock := by
      unfold sockAt
      rw [h0]
    simp only [List.length_cons]
    unfold countReady
    rw [ih (i + 1) hrest]
    cases hc : c.sock with
    | none =>
      rw [hs, hc]
      simp [List.filter_cons, hc]
    | some sock =>
      have hm : sock.sd ∈ s := hall i sock (by rw [hs, hc])
      rw [hs, hc]
      simp [List.filter_cons, hc, hm]
      omega

/-- The descriptors that have a bit in an `fd_set`. -/
theorem mem_range_image (N : Nat) (fd : Int) :
    fd ∈ (Finset.range N).image (fun n : Nat => (n : Int)) ↔ fdInRange N fd = true := by
  unfold fdInRange
  simp only [Finset.mem_image, Finset.mem_range, decide_eq_true_eq]
  constructor
  · rintro ⟨n, hn, rfl⟩
    omega
  · rintro ⟨h0, h1⟩
    refine ⟨fd.toNat, ?_, ?_⟩
    · omega
    · omega

/-- The table is never full: its sockets are pairwise distinct, their descriptors have a
bit in the sets, and one of the `FD_SETSIZE` bits is taken by the listening socket. -/
theorem Inv.occupied_lt {N M : Nat} {listen : Socket} {st : Server}
    (hI : Inv N M listen st) : occupied st < N := by
  have hall : ∀ i sock, sockAt st i = some sock →
      sock.sd ∈ (Finset.range N).image (fun n : Nat => (n : Int)) := by
    intro i sock hs
    exact (mem_range_image N sock.sd).mpr (hI.inrange i sock hs)
  have hcount := countReady_of_all _ st hall st.client 0 (by
    intro k
    simp)
  have hle := countReady_le_card listen st hI.distinct hI.listen_out st.client.length
    ((Finset.range N).image (fun n : Nat => (n : Int))) 0
  have hcard : ((Finset.range N).image (fun n : Nat => (n : Int))).card = N := by
    rw [Finset.card_image_of_injective _ Nat.cast_injective, Finset.card_range]
  have herase := Finset.card_erase_add_one ((mem_range_image N listen.sd).mpr hI.listen_in)
  unfold occupied
  omega

/-- In a state satisfying the invariant the search "look where to store sock" of lines
115-120 finds a free entry: the branch of lines 121-128 is not taken. -/
theorem Inv.freeIndex_ne {N M : Nat} {listen : Socket} {st : Server}
    (hI : Inv N M listen st) : freeIndex N st ≠ N := by
  intro e
  have hall : ∀ c ∈ st.client, (fun c : SelectPrivate => c.sock.isSome) c = true := by
    intro c hc
    rcases List.mem_iff_getElem?.mp hc with ⟨k, hk⟩
    have hkN : k < N := by
      rcases List.getElem?_eq_some.mp hk with ⟨hlt, _⟩
      rw [hI.length_eq] at hlt
      exact hlt
    have hfree := firstIndex_before (isFree st) N 0 k (Nat.zero_le _) (by
      unfold freeIndex at e
      omega)
    unfold isFree at hfree
    rw [hk] at hfree
    cases hcs : c.sock with
    | none => simp [hcs] at hfree
    | some sock => simp [hcs]
  have hfull : occupied st = st.client.length := by
    unfold occupied
    exact List.filter_length_eq_length.mpr hall
  have := hI.occupied_lt
  rw [hfull, hI.length_eq] at this
  omega

/-- In every reachable state the table has a free entry, so the branch "clients number
exceeded" of lines 121-128 is never taken by a pass started there. -/
theorem Reachable.table_never_full {N M : Nat} {listen : Socket} {st : Server}
    (h : Reachable N M listen st) : occupied st < N ∧ freeIndex N st ≠ N :=
  ⟨h.inv.occupied_lt, h.inv.freeIndex_ne⟩

/-- The pending bytes of the entry written by `selectSend` are the bytes submitted. -/
theorem pendingBytes_selectSend (st : Server) (buffer : BufPtr) (size : Nat) (i : Nat)
    (c : SelectPrivate) (hc : st.client[i]? = some c)
    (hlen : size ≤ (deref st buffer).length) :
    pendingBytes
      { c with
        buffer := if buffer = BufPtr.slot i then c.buffer
          else memmove c.buffer (deref st buffer) size
        data := 0
        dataSize := size } = (deref st buffer).take size := by
  unfold pendingBytes
  simp only [List.drop_zero]
  by_cases hb : buffer = BufPtr.slot i
  · subst hb
    simp [deref, hc]
  · simp only [hb, if_false, memmove]
    rw [List.take_append_of_le_length (by simp [hlen])]
    simp

theorem dataSizeAt_set {st : Server} {i : Nat} {c : SelectPrivate} (c' : SelectPrivate)
    (r w : fd_set) (hc : st.client[i]? = some c) :
    dataSizeAt ⟨st.client.set i c', r, w⟩ i = c'.dataSize := by
  unfold dataSizeAt
  simp only [getElem?_set_of_some _ i hc, if_true]

theorem exState3_reachable : Reachable 8 4 exListen exState3 :=
  Reachable.cycle (exRecv4 [7, 8] (exBroadcast 2)) _ exState2_reachable
    ⟨⟨by decide, by decide, by decide⟩, trivial⟩
    (triple_eta_wait _ (by decide))

theorem exState4_reachable : Reachable 8 4 exListen exState4 :=
  Reachable.cycle (exSend4 (.sent 2)) _ exState3_reachable
    ⟨⟨by decide, by decide, by decide⟩, trivial⟩
    (triple_eta_wait _ (by decide))

/-- C3, refuted on the code.  In the reachable state `exState4` connection 5 (entry 1) has
`dataSize = 2` with the bytes `[7, 8]` still unsent.  A `selectSend` of `[9]` to it succeeds
and leaves `[9]` as the pending bytes: `[7, 8]` is replaced.  The same happens inside the
reactor: in the next pass connection 4 receives `[9]`, the callback queues it for 4 and 5,
and the pass ends with `[9]` pending on connection 5 without any `socketSend`. -/
theorem C3_pending_output_overwritten :
    Reachable 8 4 exListen exState4 ∧
    exState4.client =
      [⟨some ⟨4⟩, [7, 8, 0, 0], 4, 2, 0⟩, ⟨some ⟨5⟩, [7, 8, 0, 0], 4, 0, 2⟩] ++
        List.replicate 6 ⟨none, [0, 0, 0, 0], 4, 0, 0⟩ ∧
    exState4.ractual = {3, 4} ∧ exState4.wactual = {5} ∧
    exState5.client =
      [⟨some ⟨4⟩, [9, 8, 0, 0], 4, 0, 1⟩, ⟨some ⟨5⟩, [9, 8, 0, 0], 4, 0, 1⟩] ++
        List.replicate 6 ⟨none, [0, 0, 0, 0], 4, 0, 0⟩ ∧
    exState5.ractual = {3} ∧ exState5.wactual = {4, 5} ∧
    sockAt exState4 1 = some ⟨5⟩ ∧ 0 < dataSizeAt exState4 1 ∧
    pendingAt exState4 1 = [7, 8] ∧
    selectSend 8 exState4 ⟨5⟩ (.mem [9]) 1 = .ok exOverwritten ∧
    pendingAt exOverwritten 1 = [9] ∧
    ¬ (pendingAt exState4 1).Sublist (pendingAt exOverwritten 1) ∧
    selectServerCycle 8 4 exListen (exRecv4 [9] (exBroadcast 1)) exState4 =
      (.wait, exState5,
        [.socketRecv ⟨4⟩ 4 1, .onSelectServerRecvOk ⟨4⟩ [9] 1]) ∧
    pendingAt exState5 1 = [9] :=
  ⟨exState4_reachable, by decide⟩

/-- C3 as amended: `selectSend` does not protect pending output.  Whatever the remaining
count of the target, a successful call on a socket restarts the outbound state of the
first entry holding that socket: the cursor is back at the start of the buffer, the
remaining count is `size`, and the pending bytes are exactly the `size` bytes of the new
request. -/
theorem C3_selectSend_replaces_pending (N : Nat) (st st' : Server) (sock : Socket)
    (buffer : BufPtr) (size : Nat)
    (h : selectSend N st sock buffer size = .ok st')
    (hlen : size ≤ (deref st buffer).length) :
    ∃ i c', i < N ∧ sockAt st i = some sock ∧ (∀ k, k < i → sockAt st k ≠ some sock) ∧
      st'.client[i]? = some c' ∧ c'.sock = some sock ∧ c'.data = 0 ∧ c'.dataSize = size ∧
      pendingBytes c' = (deref st buffer).take size := by
  rcases selectSend_cases N st sock buffer size with h1 | ⟨i, c, hi, hc, hs, _, hfirst, h1⟩
  · rw [h1] at h
    cases h
  · rw [h1] at h
    injection h with h
    subst h
    refine ⟨i, { c with
        buffer := if buffer = BufPtr.slot i then c.buffer
          else memmove c.buffer (deref st buffer) size
        data := 0
        dataSize := size }, hi, sockAt_eq_some.mpr ⟨c, hc, hs⟩, hfirst, ?_, hs, rfl, rfl, ?_⟩
    · simp only [getElem?_set_of_some _ i hc, if_true]
    · exact pendingBytes_selectSend st buffer size i c hc hlen

/-- C3 as amended, at `exState4`: after `selectSend` of `[9]` to connection 5 its
pending bytes are `[9]`. -/
theorem C3_selectSend_replaces_pending_witness :
    selectSend 8 exState4 ⟨5⟩ (.mem [9]) 1 = .ok exOverwritten ∧
    1 ≤ (deref exState4 (.mem [9])).length ∧
    ∃ i c', i < 8 ∧ sockAt exState4 i = some ⟨5⟩ ∧
      (∀ k, k < i → sockAt exState4 k ≠ some ⟨5⟩) ∧
      exOverwritten.client[i]? = some c' ∧ c'.sock = some ⟨5⟩ ∧ c'.data = 0 ∧
      c'.dataSize = 1 ∧ pendingBytes c' = (deref exState4 (.mem [9])).take 1 :=
  ⟨by decide, by decide,
    C3_selectSend_replaces_pending 8 exState4 exOverwritten ⟨5⟩ (.mem [9]) 1 (by decide)
      (by decide)⟩

/-! ### C4 and C5: draining a connection -/

theorem usub_eq_sub {a b : Nat} (hb : b ≤ a) (ha : a < UINT_MOD) : usub a b = a - b := by
  unfold usub
  unfold UINT_MOD at ha ⊢
  norm_num at ha ⊢
  omega

/-- The write branch when `socketSend` reports `k` bytes, at most the remaining count, and
the callback calls nothing. -/
theorem writeBranch_sent_quiet (N : Nat) (i : Nat) (sock : Socket) (st : Server)
    (c : SelectPrivate) (k : Nat) (hc : st.client[i]? = some c) (hk : k ≤ c.dataSize)
    (hlt : c.dataSize < UINT_MOD) :
    writeBranch N i sock st (.sent k) [] =
      (.done,
        (if c.dataSize - k = 0 then
          { client := st.client.set i { c with data := c.data + k, dataSize := c.dataSize - k }
            ractual := FD_SET sock.sd st.ractual
            wactual := FD_CLR sock.sd st.wactual }
        else
          { client := st.client.set i { c with data := c.data + k, dataSize := c.dataSize - k }
            ractual := st.ractual
            wactual := st.wactual }),
        [.socketSend sock (pendingBytes c) c.dataSize k,
          .onSelectServerSentOk sock ((c.buffer.drop c.data).take k) k]) := by
  unfold writeBranch
  rw [hc]
  dsimp only
  rw [if_neg (by omega), if_pos (by omega)]
  simp only [runCallback]
  rw [hc]
  dsimp only
  rw [usub_eq_sub hk hlt]
  by_cases h0 : c.dataSize - k = 0
  · rw [if_pos h0, if_pos h0]
    rfl
  · rw [if_neg h0, if_neg h0]
    rfl

theorem SameConn.refl (i : Nat) (sock : Socket) (st : Server) : SameConn i sock st st :=
  ⟨rfl, Iff.rfl, Iff.rfl⟩

theorem SameConn.trans {i : Nat} {sock : Socket} {a b c : Server}
    (h1 : SameConn i sock a b) (h2 : SameConn i sock b c) : SameConn i sock a c :=
  ⟨h2.1.trans h1.1, h2.2.1.trans h1.2.1, h2.2.2.trans h1.2.2⟩

/-- A `selectSend` to another socket leaves the connection as it is. -/
theorem selectSend_sameConn (N : Nat) (st : Server) (i : Nat) (sock other : Socket)
    (hs : sockAt st i = some sock) (hne : other ≠ sock) (buffer : BufPtr) (size : Nat) :
    SameConn i sock st (selectSend N st other buffer size).state := by
  rcases selectSend_cases N st other buffer size with h | ⟨i', c', _, hc', hs', _, _, h⟩
  · rw [h]
    exact SameConn.refl i sock st
  · rw [h]
    have hii : i ≠ i' := by
      intro e
      subst e
      rcases sockAt_eq_some.mp hs with ⟨c, hc, hcs⟩
      rw [hc] at hc'
      injection hc' with hc'
      subst hc'
      rw [hcs] at hs'
      injection hs' with hs'
      exact hne hs'.symm
    have hsd : sock.sd ≠ other.sd := fun e => hne (Socket.eq_of_sd e).symm
    refine ⟨?_, ?_, ?_⟩
    · simp only [Outcome.state, getElem?_set_of_some _ i hc', hii, if_false]
    · simp [Outcome.state, hsd]
    · simp [Outcome.state, hsd]

/-- A callback that calls `selectSend` on other sockets only leaves the connection as it
is. -/
theorem runCallback_sameConn (N : Nat) (i : Nat) (sock : Socket) (calls : List SendCall) :
    ∀ (st : Server), sockAt st i = some sock → (∀ call ∈ calls, call.sock ≠ sock) →
      SameConn i sock st (runCallback N calls st).state := by
  induction calls with
  | nil =>
    intro st _ _
    exact SameConn.refl i sock st
  | cons c cs ih =>
    intro st hs hcalls
    have h1 := selectSend_sameConn N st i sock c.sock hs (hcalls c (List.mem_cons_self _ _))
      c.buffer c.size
    have h2 := selectSend_sockAt N st c.sock c.buffer c.size i
    unfold runCallback
    cases hr : selectSend N st c.sock c.buffer c.size with
    | ok st1 =>
      rw [hr] at h1 h2
      simp only [Outcome.state] at h1 h2
      dsimp only
      exact h1.trans (ih st1 (by rw [h2, hs]) (fun call hc => hcalls call (List.mem_cons_of_mem _ hc)))
    | assertFailed st1 =>
      rw [hr] at h1
      exact h1

/-- A successful execution of the write branch in which `socketSend` reports `k` bytes
and the callback submits nothing to this connection. -/
theorem writeBranch_sent_done (N : Nat) (i : Nat) (sock : Socket) (st st2 : Server)
    (c : SelectPrivate) (k : Nat) (calls : List SendCall) (ev : List Event)
    (hc : st.client[i]? = some c) (hcs : c.sock = some sock) (hlt : c.dataSize < UINT_MOD)
    (hcalls : ∀ call ∈ calls, call.sock ≠ sock)
    (hdone : writeBranch N i sock st (.sent k) calls = (.done, st2, ev)) :
    k ≤ c.dataSize ∧
    ev = [.socketSend sock (pendingBytes c) c.dataSize k,
      .onSelectServerSentOk sock ((c.buffer.drop c.data).take k) k] ∧
    st2.client[i]? = some { c with data := c.data + k, dataSize := c.dataSize - k } ∧
    (c.dataSize - k = 0 → sock.sd ∈ st2.ractual ∧ sock.sd ∉ st2.wactual) ∧
    (c.dataSize - k ≠ 0 → (sock.sd ∈ st2.ractual ↔ sock.sd ∈ st.ractual) ∧
      (sock.sd ∈ st2.wactual ↔ sock.sd ∈ st.wactual)) := by
  have hs : sockAt st i = some sock := sockAt_eq_some.mpr ⟨c, hc, hcs⟩
  have hframe := runCallback_sameConn N i sock calls st hs hcalls
  unfold writeBranch at hdone
  rw [hc] at hdone
  dsimp only at hdone
  by_cases hk : k ≤ c.dataSize
  · rw [if_neg (by omega), if_pos (by omega)] at hdone
    cases hr : runCallback N calls st with
    | assertFailed st1 =>
      rw [hr] at hdone
      dsimp only at hdone
      injection hdone with h1 _
      cases h1
    | ok st1 =>
      rw [hr] at hdone hframe
      simp only [Outcome.state] at hframe
      dsimp only at hdone
      have hc1 : st1.client[i]? = some c := by rw [hframe.1, hc]
      rw [hc1] at hdone
      dsimp only at hdone
      rw [usub_eq_sub hk hlt] at hdone
      by_cases h0 : c.dataSize - k = 0
      · rw [if_pos h0] at hdone
        injection hdone with _ hdone
        injection hdone with hst hev
        subst hst
        subst hev
        refine ⟨hk, rfl, ?_, ?_, ?_⟩
        · simp only [getElem?_set_of_some _ i hc1, if_true]
        · intro _
          simp
        · intro h
          exact absurd h0 h
      · rw [if_neg h0] at hdone
        injection hdone with _ hdone
        injection hdone with hst hev
        subst hst
        subst hev
        refine ⟨hk, rfl, ?_, ?_, ?_⟩
        · simp only [getElem?_set_of_some _ i hc1, if_true]
        · intro h
          exact absurd h h0
        · intro _
          exact ⟨hframe.2.1, hframe.2.2⟩
  · rw [if_pos (by omega)] at hdone
    injection hdone with h1 _
    cases h1

/-- The regions sent during a drain are the bytes that were pending at its start. -/
theorem Drain.regions {N : Nat} {i : Nat} {sock : Socket} {st : Server} {counts : List Nat}
    {evs : List Event} {sts : List Server} (hd : Drain N i sock st counts evs sts) :
    ∀ c, st.client[i]? = some c → c.sock = some sock → c.dataSize = counts.sum →
      c.dataSize < UINT_MOD →
      evs.flatMap sentOkRegion = pendingBytes c ∧ evs.flatMap sendRegion = pendingBytes c := by
  induction hd with
  | nil st =>
    intro c _ _ hsum _
    simp only [List.sum_nil] at hsum
    simp [pendingBytes, hsum]
  | @step st st1 st2 k ks ev evs sts calls hsame hcalls hstep _ ih =>
    intro c hc hcs hsum hlt
    simp only [List.sum_cons] at hsum
    have hc1 : st1.client[i]? = some c := by rw [hsame.1, hc]
    rcases writeBranch_sent_done N i sock st1 st2 c k calls ev hc1 hcs hlt hcalls hstep with
      ⟨hk, hev, hc2, _, _⟩
    have hih := ih _ hc2 hcs (by simp only; omega) (by simp only; omega)
    subst hev
    constructor
    · simp only [List.flatMap_append, List.flatMap_cons, List.flatMap_nil]
      rw [hih.1]
      simp only [sentOkRegion, pendingBytes, List.append_nil, List.nil_append,
        List.take_take, min_self]
      rw [hsum, List.take_add, List.drop_drop]
      congr 2
      omega
    · simp only [List.flatMap_append, List.flatMap_cons, List.flatMap_nil]
      rw [hih.2]
      simp only [sendRegion, pendingBytes, List.append_nil, List.nil_append,
        List.take_take, Int.toNat_ofNat]
      rw [min_eq_left hk]
      rw [hsum, List.take_add, List.drop_drop]
      congr 2
      omega

/-- The states after the steps of a drain whose counts are positive and add up to the
remaining count. -/
theorem Drain.states {N : Nat} {i : Nat} {sock : Socket} {st : Server} {counts : List Nat}
    {evs : List Event} {sts : List Server} (hd : Drain N i sock st counts evs sts) :
    ∀ c, st.client[i]? = some c → c.sock = some sock → c.dataSize = counts.sum →
      c.dataSize < UINT_MOD → (∀ k ∈ counts, 0 < k) →
      sock.sd ∈ st.wactual → sock.sd ∉ st.ractual →
      sts.length = counts.length ∧
      ∀ j s, sts[j]? = some s →
        (j + 1 < counts.length → sock.sd ∈ s.wactual ∧ sock.sd ∉ s.ractual ∧
          0 < dataSizeAt s i) ∧
        (j + 1 = counts.length → dataSizeAt s i = 0 ∧ sock.sd ∉ s.wactual ∧
          sock.sd ∈ s.ractual) := by
  induction hd with
  | nil st =>
    intro c _ _ _ _ _ _ _
    simp
  | @step st st1 st2 k ks ev evs sts calls hsame hcalls hstep hrest ih =>
    intro c hc hcs hsum hlt hpos hw hr
    simp only [List.sum_cons] at hsum
    have hc1 : st1.client[i]? = some c := by rw [hsame.1, hc]
    have hw1 : sock.sd ∈ st1.wactual := hsame.2.2.mpr hw
    have hr1 : sock.sd ∉ st1.ractual := fun h => hr (hsame.2.1.mp h)
    rcases writeBranch_sent_done N i sock st1 st2 c k calls ev hc1 hcs hlt hcalls hstep with
      ⟨hk, _, hc2, hzero, hnonzero⟩
    have hds2 : dataSizeAt st2 i = c.dataSize - k := by
      unfold dataSizeAt
      rw [hc2]
    by_cases hks : ks = []
    · subst hks
      cases hrest
      simp only [List.sum_nil] at hsum
      have h0 : c.dataSize - k = 0 := by omega
      constructor
      · rfl
      · intro j s hj
        cases j with
        | zero =>
          simp only [List.getElem?_cons_zero, Option.some.injEq] at hj
          subst hj
          constructor
          · intro h
            simp at h
          · intro _
            exact ⟨by rw [hds2, h0], (hzero h0).2, (hzero h0).1⟩
        | succ j => simp at hj
    · have hsumpos : 0 < ks.sum := by
        cases ks with
        | nil => exact absurd rfl hks
        | cons a as =>
          have := hpos a (by simp)
          simp only [List.sum_cons]
          omega
      have h0 : c.dataSize - k ≠ 0 := by omega
      have hw2 : sock.sd ∈ st2.wactual := (hnonzero h0).2.mpr hw1
      have hr2 : sock.sd ∉ st2.ractual := fun h => hr1 ((hnonzero h0).1.mp h)
      have hih := ih _ hc2 hcs (by simp only; omega) (by simp only; omega)
        (fun a ha => hpos a (List.mem_cons_of_mem _ ha)) hw2 hr2
      constructor
      · simp [hih.1]
      · intro j s hj
        cases j with
        | zero =>
          simp only [List.getElem?_cons_zero, Option.some.injEq] at hj
          subst hj
          constructor
          · intro _
            exact ⟨hw2, hr2, by rw [hds2]; omega⟩
          · intro h
            exfalso
            simp only [List.length_cons] at h
            have : ks.length ≠ 0 := fun e => hks (List.length_eq_zero.mp e)
            omega
        | succ j =>
          simp only [List.getElem?_cons_succ] at hj
          have := hih.2 j s hj
          constructor
          · intro h
            exact this.1 (by simp only [List.length_cons] at h; omega)
          · intro h
            exact this.2 (by simp only [List.length_cons] at h; omega)

/-- The run with nothing in between and silent callbacks is a drain. -/
theorem drainRun_drain (N : Nat) (i : Nat) (sock : Socket) (counts : List Nat) :
    ∀ (st : Server) (c : SelectPrivate), st.client[i]? = some c →
      c.dataSize = counts.sum → c.dataSize < UINT_MOD →
      Drain N i sock st counts ((drainRun N i sock counts st).flatMap fun r => r.2.2)
        ((drainRun N i sock counts st).map fun r => r.2.1) := by
  induction counts with
  | nil =>
    intro st c _ _ _
    exact Drain.nil st
  | cons k ks ih =>
    intro st c hc hsum hlt
    simp only [List.sum_cons] at hsum
    have hk : k ≤ c.dataSize := by omega
    have hstep := writeBranch_sent_quiet N i sock st c k hc hk hlt
    have hc2 : (writeBranch N i sock st (.sent k) []).2.1.client[i]? =
        some { c with data := c.data + k, dataSize := c.dataSize - k } := by
      rw [hstep]
      by_cases h0 : c.dataSize - k = 0
      · rw [if_pos h0]
        simp only [getElem?_set_of_some _ i hc, if_true]
      · rw [if_neg h0]
        simp only [getElem?_set_of_some _ i hc, if_true]
    have hih := ih _ _ hc2 (by simp only; omega) (by simp only; omega)
    unfold drainRun
    simp only [List.flatMap_cons, List.map_cons]
    exact Drain.step [] (SameConn.refl i sock st) (by simp)
      (by rw [hstep]) hih

theorem SameConn.sockAt {i : Nat} {sock : Socket} {st st' : Server}
    (h : SameConn i sock st st') : sockAt st' i = sockAt st i := by
  unfold SelectUnix.sockAt
  rw [h.1]

/-- Releasing another entry and clearing another descriptor leaves the connection as it
is. -/
theorem teardown_sameConn (i j : Nat) (hij : j ≠ i) (sock : Socket) (st : Server)
    (r w : fd_set)
    (hr : sock.sd ∈ r ↔ sock.sd ∈ st.ractual) (hw : sock.sd ∈ w ↔ sock.sd ∈ st.wactual) :
    SameConn i sock st ⟨freeSlot st.client j, r, w⟩ := by
  have hii : i ≠ j := fun e => hij e.symm
  refine ⟨?_, hr, hw⟩
  simp only [getElem?_freeSlot, hii, if_false]

theorem recvInto_sameConn (i j : Nat) (hij : j ≠ i) (sock : Socket) (st : Server)
    (bytes : List Byte) : SameConn i sock st (recvInto st j bytes) := by
  have hii : i ≠ j := fun e => hij e.symm
  unfold recvInto
  cases hc : st.client[j]? with
  | none => exact SameConn.refl i sock st
  | some c =>
    refine ⟨?_, Iff.rfl, Iff.rfl⟩
    simp only [getElem?_set_of_some _ i hc, hii, if_false]

/-- The read branch of another entry, whose callback submits nothing to this connection,
leaves the connection as it is. -/
theorem readBranch_sameConn (N M : Nat) (i j : Nat) (hij : j ≠ i) (sock other : Socket)
    (hne : other ≠ sock) (st : Server) (hs : sockAt st i = some sock) (res : RecvResult)
    (calls : List SendCall) (hcalls : ∀ call ∈ calls, call.sock ≠ sock) :
    SameConn i sock st (readBranch N M j other st res calls).2.1 := by
  have hsd : sock.sd ≠ other.sd := fun e => hne (Socket.eq_of_sd e).symm
  unfold readBranch
  cases res with
  | error errno =>
    dsimp only
    by_cases ht : errno.transient = true
    · rw [if_pos ht]
      exact SameConn.refl i sock st
    · rw [if_neg ht]
      exact teardown_sameConn i j hij sock st _ _ (by simp [hsd]) (by simp [hsd])
  | received bytes =>
    dsimp only
    have h1 := recvInto_sameConn i j hij sock st bytes
    by_cases h0 : bytes.length = 0
    · rw [if_pos h0]
      exact h1.trans (teardown_sameConn i j hij sock _ _ _ (by simp [hsd])
        (by simp [hsd]))
    · rw [if_neg h0]
      have h2 := runCallback_sameConn N i sock calls (recvInto st j bytes)
        (by rw [h1.sockAt, hs]) hcalls
      have h3 := h1.trans h2
      split
      · rename_i st2 heq
        rw [Outcome.state_ok_of_eq heq] at h3
        exact h3
      · rename_i st2 heq
        rw [Outcome.state_failed_of_eq heq] at h3
        exact h3

/-- The write branch of another entry, whose callback submits nothing to this
connection, leaves the connection as it is. -/
theorem writeBranch_sameConn (N : Nat) (i j : Nat) (hij : j ≠ i) (sock other : Socket)
    (hne : other ≠ sock) (st : Server) (hs : sockAt st i = some sock) (res : SendResult)
    (calls : List SendCall) (hcalls : ∀ call ∈ calls, call.sock ≠ sock) :
    SameConn i sock st (writeBranch N j other st res calls).2.1 := by
  have hsd : sock.sd ≠ other.sd := fun e => hne (Socket.eq_of_sd e).symm
  have hii : i ≠ j := fun e => hij e.symm
  unfold writeBranch
  cases hc : st.client[j]? with
  | none => exact SameConn.refl i sock st
  | some c =>
    dsimp only
    cases res with
    | error errno =>
      dsimp only
      by_cases ht : errno.transient = true
      · rw [if_pos ht]
        exact SameConn.refl i sock st
      · rw [if_neg ht]
        exact teardown_sameConn i j hij sock st _ _ Iff.rfl (by simp [hsd])
    | sent rc =>
      dsimp only
      by_cases hge : c.dataSize ≥ rc
      · rw [if_neg (by omega), if_pos hge]
        have h2 := runCallback_sameConn N i sock calls st hs hcalls
        split
        · rename_i st1 heq
          rw [Outcome.state_failed_of_eq heq] at h2
          exact h2
        · rename_i st1 heq
          rw [Outcome.state_ok_of_eq heq] at h2
          cases hc1 : st1.client[j]? with
          | none => exact h2
          | some c1 =>
            dsimp only
            by_cases hz : usub c1.dataSize rc = 0
            · rw [if_pos hz]
              refine h2.trans ⟨?_, by simp [hsd], by simp [hsd]⟩
              simp only [getElem?_set_of_some _ i hc1, hii, if_false]
            · rw [if_neg hz]
              refine h2.trans ⟨?_, Iff.rfl, Iff.rfl⟩
              simp only [getElem?_set_of_some _ i hc1, hii, if_false]
      · rw [if_pos (by omega)]
        exact SameConn.refl i sock st

theorem writePart_sameConn (N : Nat) (env : Env) (wset : fd_set) (i j : Nat) (hij : j ≠ i)
    (sock other : Socket) (hne : other ≠ sock) (st : Server)
    (hs : sockAt st i = some sock) (nready : Int) (ev0 : List Event)
    (hcalls : ∀ call ∈ env.onSentOk j, call.sock ≠ sock) :
    SameConn i sock st (writePart N env wset j other st nready ev0).2.1 := by
  unfold writePart
  have h := writeBranch_sameConn N i j hij sock other hne st hs (env.send j)
    (env.onSentOk j) hcalls
  split
  · split
    · rename_i heq
      rw [heq] at h
      exact h
    · rename_i heq
      rw [heq] at h
      exact h
    · rename_i heq
      rw [heq] at h
      split
      · exact h
      · exact h
    · rename_i heq
      rw [heq] at h
      split
      · exact h
      · exact h
  · exact SameConn.refl i sock st

/-- The loop body of another entry, whose callbacks submit nothing to this connection,
leaves the connection as it is. -/
theorem clientBody_sameConn (N M : Nat) (env : Env) (rset wset : fd_set) (i j : Nat)
    (hij : j ≠ i) (sock : Socket) (st : Server) (nready : Int)
    (hs : sockAt st i = some sock)
    (hdist : ∀ a b s, sockAt st a = some s → sockAt st b = some s → a = b)
    (hrecv : ∀ call ∈ env.onRecvOk j, call.sock ≠ sock)
    (hsent : ∀ call ∈ env.onSentOk j, call.sock ≠ sock) :
    SameConn i sock st (clientBody N M env rset wset j st nready).2.1 := by
  unfold clientBody
  cases hsj : sockAt st j with
  | none => exact SameConn.refl i sock st
  | some other =>
    have hne : other ≠ sock := by
      intro e
      subst e
      exact hij (hdist j i other hsj hs)
    dsimp only
    split
    · have h := readBranch_sameConn N M i j hij sock other hne st hs (env.recv j)
        (env.onRecvOk j) hrecv
      split
      · rename_i heq
        rw [heq] at h
        exact h
      · rename_i heq
        rw [heq] at h
        exact h
      · rename_i heq
        rw [heq] at h
        dsimp only at h
        split
        · exact h
        · exact h.trans (writePart_sameConn N env wset i j hij sock other hne _
            (by rw [h.sockAt, hs]) _ _ hsent)
      · rename_i heq
        rw [heq] at h
        dsimp only at h
        split
        · exact h
        · exact h
    · exact writePart_sameConn N env wset i j hij sock other hne st hs _ _ hsent

/-- The loop body of the entry itself does nothing when its socket is not ready. -/
theorem clientBody_not_ready (N M : Nat) (env : Env) (rset wset : fd_set) (i : Nat)
    (sock : Socket) (st : Server) (nready : Int) (hs : sockAt st i = some sock)
    (hr : sock.sd ∉ rset) (hw : sock.sd ∉ wset) :
    clientBody N M env rset wset i st nready = (.next, st, nready, []) := by
  unfold clientBody
  rw [hs]
  dsimp only
  rw [if_neg (by simpa using hr)]
  unfold writePart
  rw [if_neg (by simpa using hw)]

/-- A scan in which the connection is not ready and no callback submits to it leaves the
connection as it is. -/
theorem scanClients_sameConn {N M : Nat} {listen : Socket} (env : Env) (rset wset : fd_set)
    (i : Nat) (sock : Socket) (hr : sock.sd ∉ rset) (hw : sock.sd ∉ wset)
    (hrecv : ∀ j, ∀ call ∈ env.onRecvOk j, call.sock ≠ sock)
    (hsent : ∀ j, ∀ call ∈ env.onSentOk j, call.sock ≠ sock) (n : Nat) :
    ∀ (a : Nat) (st : Server) (nready : Int), Inv N M listen st → sockAt st i = some sock →
      SameConn i sock st (scanClients N M env rset wset n a st nready).2.1 := by
  induction n with
  | zero =>
    intro a st nready _ _
    exact SameConn.refl i sock st
  | succ n ih =>
    intro a st nready hI hs
    have hbody : SameConn i sock st (clientBody N M env rset wset a st nready).2.1 := by
      by_cases e : a = i
      · subst e
        rw [clientBody_not_ready N M env rset wset a sock st nready hs hr hw]
        exact SameConn.refl a sock st
      · exact clientBody_sameConn N M env rset wset i a e sock st nready hs hI.distinct
          (hrecv a) (hsent a)
    have hI1 := clientBody_inv hI env rset wset a nready
    unfold scanClients
    split
    · rename_i st1 nready1 ev1 heq
      rw [heq] at hbody hI1
      dsimp only at hbody hI1 ⊢
      exact hbody.trans (ih (a + 1) st1 nready1 hI1 (by rw [hbody.sockAt, hs]))
    · rename_i fl st1 x ev1 hne heq
      rw [heq] at hbody
      exact hbody

/-- Between the write steps of a drain the reactor may run whole passes: a pass from a
reachable state, with answers respecting the contract of `select` and `accept`, in which
the connection is not reported ready and no callback submits to it, leaves the connection
as it is. -/
theorem selectServerCycle_sameConn {N M : Nat} {listen : Socket} {st : Server}
    (h : Reachable N M listen st) (env : Env) (hv : env.Valid listen st) (i : Nat)
    (sock : Socket) (hs : sockAt st i = some sock)
    (hready : ∀ rc rset wset, env.select = .ready rc rset wset →
      sock.sd ∉ rset ∧ sock.sd ∉ wset)
    (hrecv : ∀ j, ∀ call ∈ env.onRecvOk j, call.sock ≠ sock)
    (hsent : ∀ j, ∀ call ∈ env.onSentOk j, call.sock ≠ sock) :
    SameConn i sock st (selectServerCycle N M listen env st).2.1 := by
  have hI := h.inv
  unfold selectServerCycle
  cases hsel : env.select with
  | error errno =>
    dsimp only
    split <;> exact SameConn.refl i sock st
  | ready rc rset wset =>
    have hnr := hready rc rset wset hsel
    dsimp only
    split
    · cases hacc : env.accept with
      | failed => exact SameConn.refl i sock st
      | wouldBlock => exact SameConn.refl i sock st
      | ok conn nonblocking =>
        dsimp only
        split
        · exact SameConn.refl i sock st
        · split
          · exact SameConn.refl i sock st
          · rename_i hfree
            rcases freeIndex_spec N st hfree with ⟨c, hc, hcnone⟩
            have hv2 := hv.2
            rw [hacc] at hv2
            have hfresh : ∀ j, sockAt st j ≠ some conn := fun j hj => by
              rcases sockAt_eq_some.mp hj with ⟨d, hd, hds⟩
              exact hv2.2 d (List.getElem?_mem hd) hds
            have hki : i ≠ freeIndex N st := by
              intro e
              rcases sockAt_eq_some.mp hs with ⟨d, hd, hds⟩
              rw [e, hc] at hd
              injection hd with hd
              subst hd
              rw [hcnone] at hds
              cases hds
            have hsd : sock.sd ≠ conn.sd := by
              intro e
              apply hfresh i
              rw [hs, Socket.eq_of_sd e]
            have hstore : SameConn i sock st (storeSock st (freeIndex N st) conn) := by
              unfold storeSock
              simp only [hc]
              refine ⟨?_, by simp [hsd], by simp [hsd]⟩
              simp only [getElem?_set_of_some _ i hc, hki, if_false]
            split
            · exact ⟨hstore.1, Iff.rfl, Iff.rfl⟩
            · rename_i hin
              have hI1 := hI.storeSock hc hv2.1 hfresh (by simpa using hin)
              split
              · exact hstore
              · unfold scanPhase
                exact hstore.trans (scanClients_sameConn env rset wset i sock hnr.1 hnr.2
                  hrecv hsent N 0 _ _ hI1 (by rw [hstore.sockAt, hs]))
    · unfold scanPhase
      exact scanClients_sameConn env rset wset i sock hnr.1 hnr.2 hrecv hsent N 0 _ _ hI hs

/-- In a state satisfying the invariant, `selectSend` of an admissible size to a socket
of the table succeeds and updates the entry that holds the socket. -/
theorem selectSend_ok_of_inv {N M : Nat} {listen : Socket} {st : Server}
    (hI : Inv N M listen st) {i : Nat} {sock : Socket} (hs : sockAt st i = some sock)
    (buffer : BufPtr) {size : Nat} (hpos : 0 < size) (hle : size ≤ M) :
    ∃ c, st.client[i]? = some c ∧ c.sock = some sock ∧
      selectSend N st sock buffer size = .ok
        { client := st.client.set i
            { c with
              buffer := if buffer = BufPtr.slot i then c.buffer
                else memmove c.buffer (deref st buffer) size
              data := 0
              dataSize := size }
          ractual := FD_CLR sock.sd st.ractual
          wactual := FD_SET sock.sd st.wactual } := by
  rcases sockAt_eq_some.mp hs with ⟨c, hc, hcs⟩
  have hiN : i < N := by
    rcases List.getElem?_eq_some.mp hc with ⟨hi, _⟩
    rw [hI.length_eq] at hi
    exact hi
  have h0 : ∃ c0, st.client[0]? = some c0 := by
    have : 0 < st.client.length := by
      rw [hI.length_eq]
      omega
    exact ⟨_, List.getElem?_eq_getElem this⟩
  rcases h0 with ⟨c0, hc0⟩
  have hb := hI.bufer 0 c0 hc0
  rcases selectSend_cases N st sock buffer size with h1 | ⟨i', c', hi', hc', hs', _, _, h1⟩
  · exfalso
    unfold selectSend at h1
    rw [hc0] at h1
    dsimp only at h1
    rw [if_pos ⟨hpos, by omega⟩] at h1
    have hne : firstIndex (fun k => decide (sockAt st k = some sock)) N 0 ≠ N := by
      intro e
      have := firstIndex_before (fun k => decide (sockAt st k = some sock)) N 0 i
        (Nat.zero_le _) (by omega)
      simp [hs] at this
    rw [if_neg hne] at h1
    have hlt : firstIndex (fun k => decide (sockAt st k = some sock)) N 0 < st.client.length := by
      have := firstIndex_le (fun k => decide (sockAt st k = some sock)) N 0
      rw [hI.length_eq]
      omega
    rw [List.getElem?_eq_getElem hlt] at h1
    cases h1
  · have e : i' = i := hI.distinct i' i sock (sockAt_eq_some.mpr ⟨c', hc', hs'⟩) hs
    subst e
    rw [hc] at hc'
    injection hc' with hc'
    subst hc'
    exact ⟨c, hc, hcs, h1⟩

/-- C4: in a reachable state, a `selectSend` of `size` bytes (0 < size ≤ maxChunkSize,
where `maxChunkSize` fits an `unsigned`) to a connection of the table succeeds.  Then for every list of send counts adding up to `size`
there are drains of the connection with these counts, and in every such drain (successful
write steps with these counts, arbitrary activity leaving the connection untouched in
between, callbacks that submit only to other sockets) the regions handed to
`onSelectServerSentOk`, and the parts of the regions handed to `socketSend` that were
actually sent, concatenated in order, are exactly the `size` bytes submitted. -/
theorem C4_send_round_trip (N M : Nat) (listen : Socket) (st : Server)
    (h : Reachable N M listen st) (i : Nat) (sock : Socket) (hs : sockAt st i = some sock)
    (buffer : BufPtr) (size : Nat) (hpos : 0 < size) (hle : size ≤ M) (hM : M < UINT_MOD)
    (hlen : size ≤ (deref st buffer).length) (counts : List Nat)
    (hsum : counts.sum = size) :
    ∃ st0, selectSend N st sock buffer size = .ok st0 ∧
      (∃ evs sts, Drain N i sock st0 counts evs sts) ∧
      ∀ evs sts, Drain N i sock st0 counts evs sts →
        evs.flatMap sentOkRegion = (deref st buffer).take size ∧
        evs.flatMap sendRegion = (deref st buffer).take size := by
  rcases selectSend_ok_of_inv h.inv hs buffer hpos hle with ⟨c, hc, hcs, hok⟩
  refine ⟨_, hok, ?_⟩
  have hc0 : (⟨st.client.set i
      { c with
        buffer := if buffer = BufPtr.slot i then c.buffer
          else memmove c.buffer (deref st buffer) size
        data := 0
        dataSize := size }, FD_CLR sock.sd st.ractual, FD_SET sock.sd st.wactual⟩ :
      Server).client[i]? = some
      { c with
        buffer := if buffer = BufPtr.slot i then c.buffer
          else memmove c.buffer (deref st buffer) size
        data := 0
        dataSize := size } := by
    simp only [getElem?_set_of_some _ i hc, if_true]
  have hP := pendingBytes_selectSend st buffer size i c hc hlen
  constructor
  · exact ⟨_, _, drainRun_drain N i sock counts _ _ hc0 hsum.symm (by simp only; omega)⟩
  · intro evs sts hd
    have hrun := hd.regions _ hc0 hcs hsum.symm (by simp only; omega)
    rw [hP] at hrun
    exact hrun

/-- C4 at `exState2` (capacity 8, chunk size 4): the payload `[1, 2, 3]` submitted to
connection 5 and sent as 2 bytes, then 1 byte. -/
theorem C4_send_round_trip_witness :
    Reachable 8 4 exListen exState2 ∧ sockAt exState2 1 = some ⟨5⟩ ∧
    ∃ st0, selectSend 8 exState2 ⟨5⟩ (.mem [1, 2, 3]) 3 = .ok st0 ∧
      (∃ evs sts, Drain 8 1 ⟨5⟩ st0 [2, 1] evs sts) ∧
      ∀ evs sts, Drain 8 1 ⟨5⟩ st0 [2, 1] evs sts →
        evs.flatMap sentOkRegion = (deref exState2 (.mem [1, 2, 3])).take 3 ∧
        evs.flatMap sendRegion = (deref exState2 (.mem [1, 2, 3])).take 3 :=
  ⟨exState2_reachable, by decide,
    C4_send_round_trip 8 4 exListen exState2 exState2_reachable 1 ⟨5⟩ (by decide)
      (.mem [1, 2, 3]) 3 (by decide) (by decide) (by decide) (by decide) [2, 1]
      (by decide)⟩

/-- C5: in a reachable state, a `selectSend` of `size` bytes (0 < size ≤ maxChunkSize,
where `maxChunkSize` fits an `unsigned`) to a connection of the table succeeds and leaves
the connection registered for writing only.  Then for every split of
`size` into positive counts there are drains with these counts, and in every such drain
(successful write steps with these counts): after each step but the last the descriptor
is in `wactual`, not in `ractual`, and bytes remain; after the last step nothing remains,
the descriptor is out of `wactual` and in `ractual`.  Read-interest thus comes back once,
on the last step. -/
theorem C5_partial_write_drain (N M : Nat) (listen : Socket) (st : Server)
    (h : Reachable N M listen st) (i : Nat) (sock : Socket) (hs : sockAt st i = some sock)
    (buffer : BufPtr) (size : Nat) (hpos : 0 < size) (hle : size ≤ M) (hM : M < UINT_MOD)
    (counts : List Nat) (hcounts : ∀ k ∈ counts, 0 < k) (hsum : counts.sum = size) :
    ∃ st0, selectSend N st sock buffer size = .ok st0 ∧
      sock.sd ∈ st0.wactual ∧ sock.sd ∉ st0.ractual ∧
      1 ≤ counts.length ∧
      (∃ evs sts, Drain N i sock st0 counts evs sts) ∧
      ∀ evs sts, Drain N i sock st0 counts evs sts →
        sts.length = counts.length ∧
        ∀ j s, sts[j]? = some s →
          (j + 1 < counts.length → sock.sd ∈ s.wactual ∧ sock.sd ∉ s.ractual ∧
            0 < dataSizeAt s i) ∧
          (j + 1 = counts.length → dataSizeAt s i = 0 ∧ sock.sd ∉ s.wactual ∧
            sock.sd ∈ s.ractual) := by
  rcases selectSend_ok_of_inv h.inv hs buffer hpos hle with ⟨c, hc, hcs, hok⟩
  have hc0 : (⟨st.client.set i
      { c with
        buffer := if buffer = BufPtr.slot i then c.buffer
          else memmove c.buffer (deref st buffer) size
        data := 0
        dataSize := size }, FD_CLR sock.sd st.ractual, FD_SET sock.sd st.wactual⟩ :
      Server).client[i]? = some
      { c with
        buffer := if buffer = BufPtr.slot i then c.buffer
          else memmove c.buffer (deref st buffer) size
        data := 0
        dataSize := size } := by
    simp only [getElem?_set_of_some _ i hc, if_true]
  refine ⟨_, hok, by simp, by simp, ?_, ?_, ?_⟩
  · cases counts with
    | nil =>
      simp only [List.sum_nil] at hsum
      omega
    | cons a as => simp
  · exact ⟨_, _, drainRun_drain N i sock counts _ _ hc0 hsum.symm (by simp only; omega)⟩
  · intro evs sts hd
    exact hd.states _ hc0 hcs hsum.symm (by simp only; omega) hcounts (by simp) (by simp)

theorem exBig1_reachable : Reachable 8 16 exListen exBig1 :=
  Reachable.cycle (exAccept 4) _ (Reachable.init exZero (by decide))
    ⟨⟨by decide, by decide, by decide⟩, ⟨by decide, by decide⟩⟩
    (triple_eta_wait _ (by decide))

/-- C5 with 10 bytes drained as 4, 4, 2 (capacity 8, chunk size 16, connection 4). -/
theorem C5_partial_write_drain_witness :
    Reachable 8 16 exListen exBig1 ∧ sockAt exBig1 0 = some ⟨4⟩ ∧
    ∃ st0, selectSend 8 exBig1 ⟨4⟩ (.mem [0, 1, 2, 3, 4, 5, 6, 7, 8, 9]) 10 = .ok st0 ∧
      (4 : Int) ∈ st0.wactual ∧ (4 : Int) ∉ st0.ractual ∧
      1 ≤ [4, 4, 2].length ∧
      (∃ evs sts, Drain 8 0 ⟨4⟩ st0 [4, 4, 2] evs sts) ∧
      ∀ evs sts, Drain 8 0 ⟨4⟩ st0 [4, 4, 2] evs sts →
        sts.length = [4, 4, 2].length ∧
        ∀ j s, sts[j]? = some s →
          (j + 1 < [4, 4, 2].length → (4 : Int) ∈ s.wactual ∧ (4 : Int) ∉ s.ractual ∧
            0 < dataSizeAt s 0) ∧
          (j + 1 = [4, 4, 2].length → dataSizeAt s 0 = 0 ∧ (4 : Int) ∉ s.wactual ∧
            (4 : Int) ∈ s.ractual) :=
  ⟨exBig1_reachable, by decide,
    C5_partial_write_drain 8 16 exListen exBig1 exBig1_reachable 0 ⟨4⟩ (by decide)
      (.mem [0, 1, 2, 3, 4, 5, 6, 7, 8, 9]) 10 (by decide) (by decide) (by decide)
      [4, 4, 2] (by decide) (by decide)⟩

/-! ### C6: oversized requests -/
/-- C6: in every reachable state a `selectSend` call whose size exceeds the chunk capacity
(`buferSize`, equal to `maxChunkSize`) stops at the assertion of line 35, before any
store: the state at that point is the state before the call, so buffer contents, cursor,
remaining count and both interest sets are as before. -/
theorem C6_oversized_send_rejected (N M : Nat) (listen : Socket) (st : Server)
    (h : Reachable N M listen st) (sock : Socket) (buffer : BufPtr) (size : Nat)
    (hsize : M < size) :
    selectSend N st sock buffer size = .assertFailed st := by
  unfold selectSend
  cases h0 : st.client[0]? with
  | none => rfl
  | some c0 =>
    have hb := h.inv.bufer 0 c0 h0
    dsimp only
    rw [if_neg (by omega)]

/-- C6 at `exState2` (chunk size 4): a `selectSend` of 5 bytes to connection 4 is
rejected and the state is `exState2` as before. -/
theorem C6_oversized_send_rejected_witness :
    Reachable 8 4 exListen exState2 ∧ 4 < 5 ∧
    selectSend 8 exState2 ⟨4⟩ (.mem [1, 2, 3, 4, 5]) 5 = .assertFailed exState2 :=
  ⟨exState2_reachable, by decide,
    C6_oversized_send_rejected 8 4 exListen exState2 exState2_reachable ⟨4⟩
      (.mem [1, 2, 3, 4, 5]) 5 (by decide)⟩

/-! ### C7: remaining count and write-interest -/
theorem exEcho1_reachable : Reachable 8 4 exListen exEcho1 :=
  Reachable.cycle (exRecv4 [7, 8] [⟨⟨4⟩, .slot 0, 2⟩]) _ exState1_reachable
    ⟨⟨by decide, by decide, by decide⟩, trivial⟩
    (triple_eta_wait _ (by decide))

theorem exEcho2_reachable : Reachable 8 4 exListen exEcho2 :=
  Reachable.cycle (exSend4 (.error (.other 104))) _ exEcho1_reachable
    ⟨⟨by decide, by decide, by decide⟩, trivial⟩
    (triple_eta_wait _ (by decide))

theorem exReused_reachable : Reachable 8 4 exListen exReused :=
  Reachable.cycle (exAccept 4) _ exEcho2_reachable
    ⟨⟨by decide, by decide, by decide⟩, ⟨by decide, by decide⟩⟩
    (triple_eta_wait _ (by decide))

/-- C7, refuted on the code.  Connection 4 in entry 0 echoes two bytes to itself, its
`socketSend` then fails with a hard error and the entry is released with `dataSize = 2`.
The next accepted connection is stored in entry 0: in the reachable state `exReused` the
entry is occupied, its `dataSize` is 2 and its descriptor is not in `wactual`. -/
theorem C7_stale_dataSize_after_reuse :
    Reachable 8 4 exListen exReused ∧
    exReused.client =
      [⟨some ⟨4⟩, [7, 8, 0, 0], 4, 0, 2⟩] ++ List.replicate 7 ⟨none, [0, 0, 0, 0], 4, 0, 0⟩ ∧
    exReused.ractual = {3, 4} ∧ exReused.wactual = ∅ ∧
    sockAt exReused 0 = some ⟨4⟩ ∧
    dataSizeAt exReused 0 = 2 ∧ (4 : Int) ∉ exReused.wactual ∧
    ¬ (dataSizeAt exReused 0 = 0 ↔ (4 : Int) ∉ exReused.wactual) :=
  ⟨exReused_reachable, by decide⟩

/-- C7 as amended: in every reachable state, an occupied entry whose remaining count
`dataSize` is 0 does not have its descriptor in the write-interest set; equivalently, a
descriptor in `wactual` belongs to an entry with `dataSize` greater than 0. -/
theorem C7_zero_remaining_not_write_interest (N M : Nat) (listen : Socket) (st : Server)
    (h : Reachable N M listen st) (i : Nat) (c : SelectPrivate) (sock : Socket)
    (hc : st.client[i]? = some c) (hs : c.sock = some sock) :
    (c.dataSize = 0 → sock.sd ∉ st.wactual) ∧ (sock.sd ∈ st.wactual → 0 < c.dataSize) := by
  constructor
  · intro h0 hw
    exact h.inv.pending i c sock hc hs hw h0
  · intro hw
    have := h.inv.pending i c sock hc hs hw
    omega

/-- C7 as amended, at `exState4`: connection 5 in entry 1 is in `wactual` and has two
bytes remaining. -/
theorem C7_zero_remaining_not_write_interest_witness :
    Reachable 8 4 exListen exState4 ∧
    exState4.client[1]? = some ⟨some ⟨5⟩, [7, 8, 0, 0], 4, 0, 2⟩ ∧
    (((2 : Nat) = 0 → (5 : Int) ∉ exState4.wactual) ∧
      ((5 : Int) ∈ exState4.wactual → 0 < 2)) :=
  ⟨exState4_reachable, by decide,
    C7_zero_remaining_not_write_interest 8 4 exListen exState4 exState4_reachable 1
      ⟨some ⟨5⟩, [7, 8, 0, 0], 4, 0, 2⟩ ⟨5⟩ (by decide) rfl⟩

/-! ### C8 and C9: receive returning 0, transient receive failure -/
theorem firstIndex_le_of_true (p : Nat → Bool) (n i k : Nat) (hik : i ≤ k) (hpk : p k = true) :
    firstIndex p n i ≤ k := by
  by_contra hlt
  have := firstIndex_before p n i k hik (by omega)
  rw [this] at hpk
  cases hpk

theorem set_self_of_getElem? {α : Type} {l : List α} {i : Nat} {c : α}
    (h : l[i]? = some c) : l.set i c = l := by
  apply List.ext_getElem?
  intro j
  rw [getElem?_set_of_some c j h]
  by_cases e : j = i
  · subst e
    simp [h]
  · simp [e]

theorem recvInto_nil (st : Server) (i : Nat) : recvInto st i [] = st := by
  unfold recvInto
  cases hc : st.client[i]? with
  | none => rfl
  | some c =>
    have : ({ c with buffer := memmove c.buffer [] ([] : List Byte).length } : SelectPrivate) = c := by
      simp [memmove]
    simp only [this]
    rw [set_self_of_getElem? hc]

/-- The loop body for an entry whose socket is readable and whose `socketRecv` returns 0:
the teardown of lines 155-162, then the `break` of line 166 when the counter reaches 0,
and otherwise the read of the destroyed socket at line 169. -/
theorem clientBody_recv_zero (N M : Nat) (env : Env) (rset wset : fd_set) (i : Nat)
    (st : Server) (nready : Int) (sock : Socket)
    (hs : sockAt st i = some sock) (hr : sock.sd ∈ rset)
    (hrecv : env.recv i = .received []) :
    clientBody N M env rset wset i st nready =
      ((if nready - 1 ≤ 0 then Flow.brk else Flow.undefined),
        { client := freeSlot st.client i
          ractual := FD_CLR sock.sd st.ractual
          wactual := FD_CLR sock.sd st.wactual },
        nready - 1,
        [.socketRecv sock M 0, .onSelectServerDisconnect sock, .socketClose sock,
          .socketDestroy sock]) := by
  unfold clientBody
  rw [hs]
  dsimp only
  rw [if_pos ((FD_ISSET_iff _ _).mpr hr), hrecv]
  unfold readBranch
  dsimp only
  rw [recvInto_nil]
  simp only [List.length_nil, if_true]
  by_cases hn : nready - 1 ≤ 0
  · rw [if_pos hn, if_pos hn]
  · rw [if_neg hn, if_neg hn]

/-- A successful accept, of a descriptor that has a bit in the sets, in a state where
entry `i` is free: the socket is stored in the lowest free entry, whose index is at most
`i`, `onSelectServerConnect` is called, and the pass goes on with the scan (or back to
`select` when nothing else is ready). -/
theorem accept_into_lowest_free (N M : Nat) (listen : Socket) (st : Server) (i : Nat)
    (hi : i < N) (hfree : isFree st i = true) (env : Env) (rc : Nat) (rset wset : fd_set)
    (conn : Socket) (hsel : env.select = .ready rc rset wset) (hl : listen.sd ∈ rset)
    (hacc : env.accept = .ok conn true) (hin : fdInRange N conn.sd = true) :
    ∃ j, j ≤ i ∧ (∀ k, k < j → isFree st k = false) ∧ isFree st j = true ∧
      sockAt (storeSock st j conn) j = some conn ∧
      selectServerCycle N M listen env st =
        (if (rc : Int) - 1 ≤ 0 then
          (.wait, storeSock st j conn,
            [.socketAccept listen conn 0, .socketSetBlocking conn 0,
              .onSelectServerConnect conn])
        else
          scanPhase N M env rset wset (storeSock st j conn) ((rc : Int) - 1)
            [.socketAccept listen conn 0, .socketSetBlocking conn 0,
              .onSelectServerConnect conn]) := by
  have hle : freeIndex N st ≤ i := firstIndex_le_of_true _ N 0 i (Nat.zero_le _) hfree
  have hne : freeIndex N st ≠ N := by omega
  rcases freeIndex_spec N st hne with ⟨d, hd, hds⟩
  refine ⟨_, hle, ?_, ?_, ?_, ?_⟩
  · intro k hk
    exact firstIndex_before _ N 0 k (Nat.zero_le _) hk
  · exact (isFree_iff st _).mpr ⟨d, hd, hds⟩
  · unfold storeSock
    simp only [hd]
    rw [sockAt_set _ _ _ _ hd]
    simp
  · unfold selectServerCycle
    rw [hsel]
    dsimp only
    rw [if_pos ((FD_ISSET_iff _ _).mpr hl), hacc]
    dsimp only
    rw [if_neg (by simp), if_neg hne, if_neg (by simp [hin])]

/-- C8, the code at a failing input.  In the reachable state `exState2` connections 4
(entry 0) and 5 (entry 1) are both reported readable, so `nready = 2`, and `socketRecv`
returns 0 on connection 4.  The loop body for entry 0 runs lines 155-162: the descriptor
leaves both interest sets, `onSelectServerDisconnect` is called once, the socket is closed
and destroyed and the entry is freed.  Line 166 then leaves `nready = 1` and does not
`break`, and line 169 evaluates `*(int*)sock` on the socket destroyed at line 161: the
loop body, and with it the pass, ends undefined.  When connection 4 is the only descriptor
reported ready the same teardown is followed by the `break` of line 166, the pass goes
back to `select` with entry 0 free (`exClosed4`), and the next accepted connection is
stored in entry 0. -/
theorem C8_disconnect_then_freed_socket_read :
    Reachable 8 4 exListen exState2 ∧ exClose45.Valid exListen exState2 ∧
    exClose45.select = .ready 2 {4, 5} ∅ ∧
    sockAt exState2 0 = some ⟨4⟩ ∧ exClose45.recv 0 = .received [] ∧
    (clientBody 8 4 exClose45 {4, 5} ∅ 0 exState2 2).1 = .undefined ∧
    (clientBody 8 4 exClose45 {4, 5} ∅ 0 exState2 2).2.2.1 = 1 ∧
    (clientBody 8 4 exClose45 {4, 5} ∅ 0 exState2 2).2.2.2 =
      [.socketRecv ⟨4⟩ 4 0, .onSelectServerDisconnect ⟨4⟩, .socketClose ⟨4⟩,
        .socketDestroy ⟨4⟩] ∧
    sockAt (clientBody 8 4 exClose45 {4, 5} ∅ 0 exState2 2).2.1 0 = none ∧
    (clientBody 8 4 exClose45 {4, 5} ∅ 0 exState2 2).2.1.ractual = {3, 5} ∧
    (clientBody 8 4 exClose45 {4, 5} ∅ 0 exState2 2).2.1.wactual = ∅ ∧
    (selectServerCycle 8 4 exListen exClose45 exState2).1 = .undefined ∧
    (exRecvResult4 (.received [])).Valid exListen exState2 ∧
    (clientBody 8 4 (exRecvResult4 (.received [])) {4} ∅ 0 exState2 1).1 = .brk ∧
    (selectServerCycle 8 4 exListen (exRecvResult4 (.received [])) exState2).1 = .wait ∧
    (selectServerCycle 8 4 exListen (exRecvResult4 (.received [])) exState2).2.2 =
      [.socketRecv ⟨4⟩ 4 0, .onSelectServerDisconnect ⟨4⟩, .socketClose ⟨4⟩,
        .socketDestroy ⟨4⟩] ∧
    exClosed4.client.map (fun c => c.sock) =
      [none, some ⟨5⟩, none, none, none, none, none, none] ∧
    exClosed4.ractual = {3, 5} ∧ exClosed4.wactual = ∅ ∧
    (selectServerCycle 8 4 exListen (exAccept 4) exClosed4).1 = .wait ∧
    sockAt (selectServerCycle 8 4 exListen (exAccept 4) exClosed4).2.1 0 = some ⟨4⟩ :=
  ⟨exState2_reachable, ⟨⟨by decide, by decide, by decide⟩, trivial⟩, rfl, by decide, rfl,
    by decide, by decide, by decide, by decide, by decide, by decide, by decide,
    ⟨⟨by decide, by decide, by decide⟩, trivial⟩, by decide, by decide, by decide,
    by decide, by decide, by decide, by decide, by decide⟩

/-- C9: when the socket of entry `i` is readable and its `socketRecv` fails with a
transient code (`EWOULDBLOCK`, `EAGAIN` or `EINTR`), the loop body runs `continue`: the
only event is the `socketRecv` itself (no callback), and the state is the one before, so
the entry keeps its socket, cursor and remaining count, both interest sets are as they
were, and the descriptor is registered for reading at the next `select` if it was
before.  The counter is not decremented. -/
theorem C9_transient_recv_is_noop (N M : Nat) (env : Env) (rset wset : fd_set) (i : Nat)
    (st : Server) (nready : Int) (sock : Socket) (errno : Errno)
    (hs : sockAt st i = some sock) (hr : sock.sd ∈ rset)
    (hrecv : env.recv i = .error errno) (ht : errno.transient = true) :
    clientBody N M env rset wset i st nready =
        (.next, st, nready, [.socketRecv sock M (-1)]) ∧
      ((clientBody N M env rset wset i st nready).2.2.2.filter Event.isCallback = []) ∧
      (sock.sd ∈ st.ractual →
        sock.sd ∈ (clientBody N M env rset wset i st nready).2.1.ractual) := by
  have h : clientBody N M env rset wset i st nready =
      (.next, st, nready, [.socketRecv sock M (-1)]) := by
    unfold clientBody
    rw [hs]
    dsimp only
    rw [if_pos ((FD_ISSET_iff _ _).mpr hr), hrecv]
    unfold readBranch
    dsimp only
    rw [if_pos ht]
  rw [h]
  exact ⟨rfl, rfl, id⟩

/-- C9 at `exState2`: connection 4 is readable and `socketRecv` fails with `EAGAIN`. -/
theorem C9_transient_recv_is_noop_witness :
    sockAt exState2 0 = some ⟨4⟩ ∧ (4 : Int) ∈ ({4} : fd_set) ∧
    (exRecvResult4 (.error .EAGAIN)).recv 0 = .error .EAGAIN ∧
    Errno.EAGAIN.transient = true ∧
    clientBody 8 4 (exRecvResult4 (.error .EAGAIN)) {4} ∅ 0 exState2 1 =
      (.next, exState2, 1, [.socketRecv ⟨4⟩ 4 (-1)]) :=
  ⟨by decide, by decide, rfl, rfl,
    (C9_transient_recv_is_noop 8 4 (exRecvResult4 (.error .EAGAIN)) {4} ∅ 0 exState2 1 ⟨4⟩
      .EAGAIN (by decide) (by decide) rfl rfl).1⟩

/-! ### C10: the counter of ready descriptors -/

theorem fdset_card_erase_le (s : fd_set) (x : Int) : (s.erase x).card ≤ s.card :=
  Finset.card_erase_le

theorem fdset_card_erase_add_one (s : fd_set) (x : Int) (h : x ∈ s) : (s.erase x).card + 1 = s.card :=
  Finset.card_erase_add_one h

/-- Without the counter, a scan over entries none of which is ready does nothing. -/
theorem scanClientsNoCounter_idle (N M : Nat) (env : Env) (rset wset : fd_set) (n : Nat) :
    ∀ (i : Nat) (st : Server), countReady rset st n i = 0 → countReady wset st n i = 0 →
      scanClientsNoCounter N M env rset wset n i st = (.next, st, []) := by
  induction n with
  | zero =>
    intro i st _ _
    rfl
  | succ n ih =>
    intro i st hr hw
    unfold countReady at hr hw
    have hr2 : countReady rset st n (i + 1) = 0 := by omega
    have hw2 : countReady wset st n (i + 1) = 0 := by omega
    have hbody : clientBodyNoCounter N M env rset wset i st = (.next, st, []) := by
      unfold clientBodyNoCounter
      cases hs : sockAt st i with
      | none => rfl
      | some sock =>
        rw [hs] at hr hw
        dsimp only at hr hw ⊢
        have hnr : sock.sd ∉ rset := by
          intro hm
          rw [if_pos hm] at hr
          omega
        have hnw : sock.sd ∉ wset := by
          intro hm
          rw [if_pos hm] at hw
          omega
        rw [if_neg (by simpa using hnr)]
        unfold writePartNoCounter
        rw [if_neg (by simpa using hnw)]
    unfold scanClientsNoCounter
    rw [hbody]
    dsimp only
    rw [ih (i + 1) st hr2 hw2]
    rfl

/-- The second half of the loop body with and without the counter.  `R` bounds the ready
entries after this one. -/
theorem writePart_vs (N : Nat) (env : Env) (wset : fd_set) (i : Nat) (sock : Socket)
    (st : Server) (nready : Int) (ev0 : List Event) (R : Nat)
    (h : (((if sock.sd ∈ wset then 1 else 0) + R : Nat) : Int) ≤ nready) :
    (writePart N env wset i sock st nready ev0).2.1 =
        (writePartNoCounter N env wset i sock st ev0).2.1 ∧
      (writePart N env wset i sock st nready ev0).2.2.2 =
        (writePartNoCounter N env wset i sock st ev0).2.2 ∧
      (((writePart N env wset i sock st nready ev0).1 = .next ∧
          (writePartNoCounter N env wset i sock st ev0).1 = .next ∧
          (R : Int) ≤ (writePart N env wset i sock st nready ev0).2.2.1) ∨
        ((writePart N env wset i sock st nready ev0).1 = .abort ∧
          (writePartNoCounter N env wset i sock st ev0).1 = .abort) ∨
        ((writePart N env wset i sock st nready ev0).1 = .brk ∧
          (writePartNoCounter N env wset i sock st ev0).1 = .next ∧ R = 0)) := by
  unfold writePart writePartNoCounter
  by_cases hm : sock.sd ∈ wset
  · rw [if_pos hm] at h
    rw [if_pos ((FD_ISSET_iff _ _).mpr hm), if_pos ((FD_ISSET_iff _ _).mpr hm)]
    rcases hwb : writeBranch N i sock st (env.send i) (env.onSentOk i) with ⟨br, st2, ev2⟩
    cases br with
    | skip =>
      dsimp only
      refine ⟨rfl, rfl, Or.inl ⟨rfl, rfl, ?_⟩⟩
      push_cast at h
      omega
    | abort =>
      dsimp only
      exact ⟨rfl, rfl, Or.inr (Or.inl ⟨rfl, rfl⟩)⟩
    | done =>
      dsimp only
      by_cases hn : nready - 1 ≤ 0
      · rw [if_pos hn]
        refine ⟨rfl, rfl, Or.inr (Or.inr ⟨rfl, rfl, ?_⟩)⟩
        push_cast at h
        omega
      · rw [if_neg hn]
        refine ⟨rfl, rfl, Or.inl ⟨rfl, rfl, ?_⟩⟩
        push_cast at h
        dsimp only
        omega
    | freed =>
      dsimp only
      by_cases hn : nready - 1 ≤ 0
      · rw [if_pos hn]
        refine ⟨rfl, rfl, Or.inr (Or.inr ⟨rfl, rfl, ?_⟩)⟩
        push_cast at h
        omega
      · rw [if_neg hn]
        refine ⟨rfl, rfl, Or.inl ⟨rfl, rfl, ?_⟩⟩
        push_cast at h
        dsimp only
        omega
  · rw [if_neg hm] at h
    rw [if_neg (by simpa using hm), if_neg (by simpa using hm)]
    refine ⟨rfl, rfl, Or.inl ⟨rfl, rfl, ?_⟩⟩
    push_cast at h
    dsimp only
    omega

/-- The loop body with and without the counter.  `R` bounds the ready entries after this
one.  Both bodies end in the same state with the same events; they go on in the same way,
unless the body without the counter reads a destroyed socket (line 169), which the
counter may prevent by leaving the loop at line 166. -/
theorem clientBody_vs (N M : Nat) (env : Env) (rset wset : fd_set) (i : Nat)
    (st : Server) (nready : Int) (R : Nat)
    (h : (((match sockAt st i with
        | some sock => if sock.sd ∈ rset then 1 else 0
        | none => 0) +
      (match sockAt st i with
        | some sock => if sock.sd ∈ wset then 1 else 0
        | none => 0) + R : Nat) : Int) ≤ nready) :
    (clientBody N M env rset wset i st nready).2.1 =
        (clientBodyNoCounter N M env rset wset i st).2.1 ∧
      (clientBody N M env rset wset i st nready).2.2.2 =
        (clientBodyNoCounter N M env rset wset i st).2.2 ∧
      (((clientBody N M env rset wset i st nready).1 = .next ∧
          (clientBodyNoCounter N M env rset wset i st).1 = .next ∧
          (R : Int) ≤ (clientBody N M env rset wset i st nready).2.2.1) ∨
        ((clientBody N M env rset wset i st nready).1 = .abort ∧
          (clientBodyNoCounter N M env rset wset i st).1 = .abort) ∨
        ((clientBody N M env rset wset i st nready).1 = .brk ∧
          (clientBodyNoCounter N M env rset wset i st).1 = .next ∧ R = 0) ∨
        (clientBodyNoCounter N M env rset wset i st).1 = .undefined) := by
  unfold clientBody clientBodyNoCounter
  cases hs : sockAt st i with
  | none =>
    rw [hs] at h
    dsimp only at h ⊢
    refine ⟨rfl, rfl, Or.inl ⟨rfl, rfl, ?_⟩⟩
    push_cast at h
    omega
  | some sock =>
    rw [hs] at h
    dsimp only at h ⊢
    by_cases hm : sock.sd ∈ rset
    · rw [if_pos hm] at h
      rw [if_pos ((FD_ISSET_iff _ _).mpr hm), if_pos ((FD_ISSET_iff _ _).mpr hm)]
      rcases hrb : readBranch N M i sock st (env.recv i) (env.onRecvOk i) with ⟨br, st1, ev1⟩
      cases br with
      | skip =>
        dsimp only
        refine ⟨rfl, rfl, Or.inl ⟨rfl, rfl, ?_⟩⟩
        push_cast at h
        omega
      | abort =>
        dsimp only
        exact ⟨rfl, rfl, Or.inr (Or.inl ⟨rfl, rfl⟩)⟩
      | done =>
        dsimp only
        by_cases hn : nready - 1 ≤ 0
        · rw [if_pos hn]
          have hR : R = 0 ∧ sock.sd ∉ wset := by
            constructor
            · push_cast at h
              omega
            · intro hw
              rw [if_pos hw] at h
              push_cast at h
              omega
          unfold writePartNoCounter
          rw [if_neg (by simpa using hR.2)]
          exact ⟨rfl, rfl, Or.inr (Or.inr (Or.inl ⟨rfl, rfl, hR.1⟩))⟩
        · rw [if_neg hn]
          have hw := writePart_vs N env wset i sock st1 (nready - 1) ev1 R (by
            push_cast at h ⊢
            omega)
          rcases hw with ⟨h1, h2, h3 | h3 | h3⟩
          · exact ⟨h1, h2, Or.inl h3⟩
          · exact ⟨h1, h2, Or.inr (Or.inl h3)⟩
          · exact ⟨h1, h2, Or.inr (Or.inr (Or.inl h3))⟩
      | freed =>
        dsimp only
        by_cases hn : nready - 1 ≤ 0
        · rw [if_pos hn]
          exact ⟨rfl, rfl, Or.inr (Or.inr (Or.inr rfl))⟩
        · rw [if_neg hn]
          exact ⟨rfl, rfl, Or.inr (Or.inr (Or.inr rfl))⟩
    · rw [if_neg hm] at h
      rw [if_neg (by simpa using hm), if_neg (by simpa using hm)]
      have hw := writePart_vs N env wset i sock st nready [] R (by
        push_cast at h ⊢
        omega)
      rcases hw with ⟨h1, h2, h3 | h3 | h3⟩
      · exact ⟨h1, h2, Or.inl h3⟩
      · exact ⟨h1, h2, Or.inr (Or.inl h3)⟩
      · exact ⟨h1, h2, Or.inr (Or.inr (Or.inl h3))⟩

/-- The scan of the table with and without the counter, when the counter is at least the
number of ready entries still ahead and the scan without the counter meets no read of a
destroyed socket. -/
theorem scanClients_vs (N M : Nat) (env : Env) (rset wset : fd_set) (n : Nat) :
    ∀ (i : Nat) (st : Server) (nready : Int),
      ((countReady rset st n i + countReady wset st n i : Nat) : Int) ≤ nready →
      (scanClientsNoCounter N M env rset wset n i st).1 ≠ .undefined →
      (scanClients N M env rset wset n i st nready).1.toLoop =
          (scanClientsNoCounter N M env rset wset n i st).1.toLoop ∧
        (scanClients N M env rset wset n i st nready).2 =
          (scanClientsNoCounter N M env rset wset n i st).2 := by
  induction n with
  | zero =>
    intro i st nready _ _
    exact ⟨rfl, rfl⟩
  | succ n ih =>
    intro i st nready h
    unfold countReady at h
    have hv := clientBody_vs N M env rset wset i st nready
      (countReady rset st n (i + 1) + countReady wset st n (i + 1)) (by
        have e : ∀ a b c d : Nat, a + b + (c + d) = a + c + (b + d) := by
          intros
          omega
        rw [e]
        exact h)
    have hcr : ∀ s : fd_set,
        countReady s (clientBody N M env rset wset i st nready).2.1 n (i + 1) =
          countReady s st n (i + 1) := by
      intro s
      apply countReady_congr
      intro j hj
      exact clientBody_sockAt N M st env rset wset i nready j (by omega)
    unfold scanClients scanClientsNoCounter
    rcases hb : clientBody N M env rset wset i st nready with ⟨fl, st1, nr1, ev1⟩
    rcases hb' : clientBodyNoCounter N M env rset wset i st with ⟨fl', st1', ev1'⟩
    rw [hb, hb'] at hv
    rw [hb] at hcr
    dsimp only at hv hcr
    rcases hv with ⟨hst, hev, hfl⟩
    subst hst
    subst hev
    rcases hfl with ⟨h1, h2, h3⟩ | ⟨h1, h2⟩ | ⟨h1, h2, h3⟩ | h2
    · subst h1
      subst h2
      dsimp only
      have := ih (i + 1) st1 nr1 (by
        rw [hcr rset, hcr wset]
        exact h3)
      rcases hsc : scanClients N M env rset wset n (i + 1) st1 nr1 with ⟨fa, sa, ea⟩
      rcases hsc' : scanClientsNoCounter N M env rset wset n (i + 1) st1 with ⟨fb, sb, eb⟩
      rw [hsc, hsc'] at this
      dsimp only at this ⊢
      intro hdef
      rcases this hdef with ⟨t1, t2⟩
      injection t2 with t2 t3
      subst t2
      subst t3
      exact ⟨t1, rfl⟩
    · subst h1
      subst h2
      exact fun _ => ⟨rfl, rfl⟩
    · subst h1
      subst h2
      dsimp only
      have hidle := scanClientsNoCounter_idle N M env rset wset n (i + 1) st1
        (by rw [hcr rset]; omega) (by rw [hcr wset]; omega)
      rw [hidle]
      dsimp only
      exact fun _ => ⟨rfl, by simp⟩
    · subst h2
      dsimp only
      intro hdef
      exact absurd rfl hdef

theorem scanPhase_vs (N M : Nat) (env : Env) (rset wset : fd_set) (st : Server)
    (nready : Int) (ev0 : List Event)
    (h : ((countReady rset st N 0 + countReady wset st N 0 : Nat) : Int) ≤ nready) :
    (scanPhaseNoCounter N M env rset wset st ev0).1 ≠ .undefined →
    scanPhase N M env rset wset st nready ev0 =
      scanPhaseNoCounter N M env rset wset st ev0 := by
  have hv := scanClients_vs N M env rset wset N 0 st nready h
  unfold scanPhase scanPhaseNoCounter
  rcases hsc : scanClients N M env rset wset N 0 st nready with ⟨fa, sa, ea⟩
  rcases hsc' : scanClientsNoCounter N M env rset wset N 0 st with ⟨fb, sb, eb⟩
  rw [hsc, hsc'] at hv
  dsimp only at hv ⊢
  intro hdef
  have hfb : fb ≠ .undefined := by
    intro e
    subst e
    exact hdef rfl
  rcases hv hfb with ⟨t1, t2⟩
  injection t2 with t2 t3
  subst t2
  subst t3
  rw [t1]

theorem countReady_bound {N M : Nat} {listen : Socket} {st : Server}
    (hI : Inv N M listen st) (rset wset : fd_set) (n i : Nat) :
    countReady rset st n i + countReady wset st n i ≤
      (rset.erase listen.sd).card + (wset.erase listen.sd).card := by
  have h1 := countReady_le_card listen st hI.distinct hI.listen_out n rset i
  have h2 := countReady_le_card listen st hI.distinct hI.listen_out n wset i
  omega

/-- What remains of the equivalence.  For every reachable state and every answer of the
outside world that respects the contract of `select` and `accept`, when the pass that
scans every entry without the counter meets no undefined step, the pass with the
`--nready <= 0` exits gives the same way out, the same state and the same events. -/
theorem selectServerCycle_eq_noCounter (N M : Nat) (listen : Socket) (st : Server)
    (h : Reachable N M listen st) (env : Env) (hv : env.Valid listen st)
    (hdef : (selectServerCycleNoCounter N M listen env st).1 ≠ .undefined) :
    selectServerCycle N M listen env st = selectServerCycleNoCounter N M listen env st := by
  have hI := h.inv
  revert hdef
  unfold selectServerCycle selectServerCycleNoCounter
  have hv1 := hv.1
  have hv2 := hv.2
  cases hsel : env.select with
  | error errno => exact fun _ => rfl
  | ready rc rset wset =>
    rw [hsel] at hv1
    dsimp only at hv1 ⊢
    have hrc := hv1.2.2
    by_cases hl : listen.sd ∈ rset
    · rw [if_pos ((FD_ISSET_iff _ _).mpr hl), if_pos ((FD_ISSET_iff _ _).mpr hl)]
      cases hacc : env.accept with
      | failed => exact fun _ => rfl
      | wouldBlock => exact fun _ => rfl
      | ok sock nonblocking =>
        rw [hacc] at hv2
        dsimp only at hv2 ⊢
        by_cases hnb : nonblocking = false
        · rw [if_pos hnb, if_pos hnb]
          exact fun _ => rfl
        · rw [if_neg hnb, if_neg hnb]
          by_cases hfull : freeIndex N st = N
          · rw [if_pos hfull, if_pos hfull]
            exact fun _ => rfl
          · rw [if_neg hfull, if_neg hfull]
            by_cases hin : fdInRange N sock.sd = false
            · rw [if_pos hin, if_pos hin]
              exact fun _ => rfl
            · rw [if_neg hin, if_neg hin]
              rcases freeIndex_spec N st hfull with ⟨c, hc, _⟩
              have hI1 := hI.storeSock hc hv2.1 (fun j hj => by
                rcases sockAt_eq_some.mp hj with ⟨d, hd, hds⟩
                exact hv2.2 d (List.getElem?_mem hd) hds) (by simpa using hin)
              have hb := countReady_bound hI1 rset wset N 0
              have hr1 := fdset_card_erase_add_one rset listen.sd hl
              have hw1 := fdset_card_erase_le wset listen.sd
              by_cases hn : (rc : Int) - 1 ≤ 0
              · rw [if_pos hn]
                unfold scanPhaseNoCounter
                rw [scanClientsNoCounter_idle N M env rset wset N 0 _ (by omega) (by omega)]
                intro _
                simp [Flow.toLoop]
              · rw [if_neg hn]
                exact scanPhase_vs N M env rset wset _ _ _ (by omega)
    · rw [if_neg (by simpa using hl), if_neg (by simpa using hl)]
      have hb := countReady_bound hI rset wset N 0
      have hr1 := fdset_card_erase_le rset listen.sd
      have hw1 := fdset_card_erase_le wset listen.sd
      exact scanPhase_vs N M env rset wset _ _ _ (by omega)

/-- C11, refuted on the code.  In the reachable state `exState2` the wait reports the
listening socket and connection 4 readable, and `socketAccept` returns 1 (no pending
connection).  The pass ends at the `continue` of line 104: its only events are the accept
attempt and the destruction of the unused socket object, the state is unchanged, and no
`socketRecv` is made on connection 4, although the per-connection phase, had it run,
would have received `[7]` on it and called `onSelectServerRecvOk`. -/
theorem C11_accept_would_block_skips_scan :
    Reachable 8 4 exListen exState2 ∧
    exAcceptBlocks.Valid exListen exState2 ∧
    exAcceptBlocks.select = .ready 2 {3, 4} ∅ ∧
    exAcceptBlocks.accept = .wouldBlock ∧
    sockAt exState2 0 = some ⟨4⟩ ∧ (4 : Int) ∈ ({3, 4} : fd_set) ∧
    selectServerCycle 8 4 exListen exAcceptBlocks exState2 =
      (.wait, exState2, [.socketAccept exListen ⟨-1⟩ 1, .socketDestroy ⟨-1⟩]) ∧
    ((selectServerCycle 8 4 exListen exAcceptBlocks exState2).2.2.filter
      (Event.isDispatchOn ⟨4⟩)) = [] ∧
    (scanPhase 8 4 exAcceptBlocks {3, 4} ∅ exState2 2 []).2.2 =
      [.socketRecv ⟨4⟩ 4 1, .onSelectServerRecvOk ⟨4⟩ [7] 1] :=
  ⟨exState2_reachable, ⟨⟨by decide, by decide, by decide⟩, trivial⟩, rfl, rfl,
    by decide, by decide, by decide, by decide, by decide⟩

/-- C11 as amended: when the listening socket is reported ready and `socketAccept` returns
1 (would block), the pass ends there and goes back to `select`: the state (table and both
interest sets) is unchanged, the only events are the accept attempt and the destruction
of the unused socket object, and no read, write or callback is dispatched for any
connection in that pass.  The connections reported ready keep their registration; the
per-connection phase serves the table in a pass where the listening socket is not
reported ready. -/
theorem C11_accept_would_block_returns_to_select (N M : Nat) (listen : Socket)
    (st : Server) (env : Env) (rc : Nat) (rset wset : fd_set)
    (hsel : env.select = .ready rc rset wset) (hl : listen.sd ∈ rset)
    (hacc : env.accept = .wouldBlock) :
    selectServerCycle N M listen env st =
        (.wait, st, [.socketAccept listen ⟨-1⟩ 1, .socketDestroy ⟨-1⟩]) ∧
      (∀ sock, (selectServerCycle N M listen env st).2.2.filter (Event.isDispatchOn sock)
        = []) ∧
      (∀ fd, (fd ∈ (selectServerCycle N M listen env st).2.1.ractual ↔ fd ∈ st.ractual) ∧
        (fd ∈ (selectServerCycle N M listen env st).2.1.wactual ↔ fd ∈ st.wactual)) ∧
      (∀ (env' : Env) (rc' : Nat) (rset' wset' : fd_set),
        env'.select = .ready rc' rset' wset' → listen.sd ∉ rset' →
        selectServerCycle N M listen env' (selectServerCycle N M listen env st).2.1 =
          scanPhase N M env' rset' wset' st rc' []) := by
  have h : selectServerCycle N M listen env st =
      (.wait, st, [.socketAccept listen ⟨-1⟩ 1, .socketDestroy ⟨-1⟩]) := by
    unfold selectServerCycle
    rw [hsel]
    dsimp only
    rw [if_pos ((FD_ISSET_iff _ _).mpr hl), hacc]
  rw [h]
  refine ⟨rfl, ?_, ?_, ?_⟩
  · intro sock
    rfl
  · intro fd
    exact ⟨Iff.rfl, Iff.rfl⟩
  · intro env' rc' rset' wset' hsel' hl'
    dsimp only
    unfold selectServerCycle
    rw [hsel']
    dsimp only
    rw [if_neg (by simpa using hl')]

/-- C11 as amended, at `exState2` with the listening socket and connection 4 reported
ready and `socketAccept` returning 1. -/
theorem C11_accept_would_block_returns_to_select_witness :
    exAcceptBlocks.select = .ready 2 {3, 4} ∅ ∧ exListen.sd ∈ ({3, 4} : fd_set) ∧
    exAcceptBlocks.accept = .wouldBlock ∧
    selectServerCycle 8 4 exListen exAcceptBlocks exState2 =
      (.wait, exState2, [.socketAccept exListen ⟨-1⟩ 1, .socketDestroy ⟨-1⟩]) :=
  ⟨rfl, by decide, rfl,
    (C11_accept_would_block_returns_to_select 8 4 exListen exState2 exAcceptBlocks 2
      {3, 4} ∅ rfl (by decide) rfl).1⟩

/-! ### C12: the write test after a teardown in the read branch -/

theorem readBranch_events_respect (N M : Nat) (i : Nat) (sock : Socket) (st : Server)
    (res : RecvResult) (calls : List SendCall) (rset wset : fd_set) (hr : sock.sd ∈ rset) :
    ∀ e ∈ (readBranch N M i sock st res calls).2.2, e.respects rset wset := by
  unfold readBranch
  cases res with
  | error errno =>
    dsimp only
    by_cases ht : errno.transient = true
    · rw [if_pos ht]
      intro e he
      simp only [List.mem_singleton] at he
      subst he
      exact hr
    · rw [if_neg ht]
      intro e he
      simp only [List.mem_cons, List.mem_singleton, List.not_mem_nil, or_false] at he
      rcases he with he | he | he | he <;> subst he
      · exact hr
      · exact hr
      · trivial
      · trivial
  | received bytes =>
    dsimp only
    by_cases h0 : bytes.length = 0
    · rw [if_pos h0]
      intro e he
      simp only [List.mem_cons, List.mem_singleton, List.not_mem_nil, or_false] at he
      rcases he with he | he | he | he <;> subst he
      · exact hr
      · exact hr
      · trivial
      · trivial
    · rw [if_neg h0]
      have hev : ∀ e ∈ [Event.socketRecv sock M bytes.length,
          Event.onSelectServerRecvOk sock bytes bytes.length], e.respects rset wset := by
        intro e he
        simp only [List.mem_cons, List.mem_singleton, List.not_mem_nil, or_false] at he
        rcases he with he | he <;> subst he
        · exact hr
        · exact hr
      split
      · exact hev
      · exact hev

theorem writeBranch_events_respect (N : Nat) (i : Nat) (sock : Socket) (st : Server)
    (res : SendResult) (calls : List SendCall) (rset wset : fd_set) (hw : sock.sd ∈ wset) :
    ∀ e ∈ (writeBranch N i sock st res calls).2.2, e.respects rset wset := by
  unfold writeBranch
  cases hc : st.client[i]? with
  | none =>
    intro e he
    simp at he
  | some c =>
    dsimp only
    cases res with
    | error errno =>
      dsimp only
      by_cases ht : errno.transient = true
      · rw [if_pos ht]
        intro e he
        simp only [List.mem_singleton] at he
        subst he
        exact hw
      · rw [if_neg ht]
        intro e he
        simp only [List.mem_cons, List.mem_singleton, List.not_mem_nil, or_false] at he
        rcases he with he | he | he | he <;> subst he
        · exact hw
        · exact hw
        · trivial
        · trivial
    | sent rc =>
      dsimp only
      have hev : ∀ e ∈ [Event.socketSend sock ((c.buffer.drop c.data).take c.dataSize)
          c.dataSize rc, Event.onSelectServerSentOk sock ((c.buffer.drop c.data).take rc) rc],
          e.respects rset wset := by
        intro e he
        simp only [List.mem_cons, List.mem_singleton, List.not_mem_nil, or_false] at he
        rcases he with he | he <;> subst he
        · exact hw
        · exact hw
      by_cases hge : c.dataSize ≥ rc
      · rw [if_neg (by omega), if_pos hge]
        split
        · exact hev
        · split
          · exact hev
          · split
            · exact hev
            · exact hev
      · rw [if_pos (by omega)]
        intro e he
        simp only [List.mem_singleton] at he
        subst he
        exact hw

theorem writePart_events_respect (N : Nat) (env : Env) (rset wset : fd_set) (i : Nat)
    (sock : Socket) (st : Server) (nready : Int) (ev0 : List Event)
    (h0 : ∀ e ∈ ev0, e.respects rset wset) :
    ∀ e ∈ (writePart N env wset i sock st nready ev0).2.2.2, e.respects rset wset := by
  unfold writePart
  by_cases hm : sock.sd ∈ wset
  · rw [if_pos ((FD_ISSET_iff _ _).mpr hm)]
    have h := writeBranch_events_respect N i sock st (env.send i) (env.onSentOk i) rset wset hm
    have happ : ∀ ev1 : List Event, (∀ e ∈ ev1, e.respects rset wset) →
        ∀ e ∈ ev0 ++ ev1, e.respects rset wset := by
      intro ev1 h1 e he
      rcases List.mem_append.mp he with he | he
      · exact h0 e he
      · exact h1 e he
    split
    · rename_i heq
      rw [heq] at h
      exact happ _ h
    · rename_i heq
      rw [heq] at h
      exact happ _ h
    · rename_i heq
      rw [heq] at h
      split
      · exact happ _ h
      · exact happ _ h
    · rename_i heq
      rw [heq] at h
      split
      · exact happ _ h
      · exact happ _ h
  · rw [if_neg (by simpa using hm)]
    exact h0

theorem clientBody_events_respect (N M : Nat) (env : Env) (rset wset : fd_set) (i : Nat)
    (st : Server) (nready : Int) :
    ∀ e ∈ (clientBody N M env rset wset i st nready).2.2.2, e.respects rset wset := by
  unfold clientBody
  cases hs : sockAt st i with
  | none =>
    intro e he
    simp at he
  | some sock =>
    dsimp only
    by_cases hm : sock.sd ∈ rset
    · rw [if_pos ((FD_ISSET_iff _ _).mpr hm)]
      have h := readBranch_events_respect N M i sock st (env.recv i) (env.onRecvOk i)
        rset wset hm
      split
      · rename_i heq
        rw [heq] at h
        exact h
      · rename_i heq
        rw [heq] at h
        exact h
      · rename_i heq
        rw [heq] at h
        split
        · exact h
        · exact writePart_events_respect N env rset wset i sock _ _ _ h
      · rename_i heq
        rw [heq] at h
        split
        · exact h
        · exact h
    · rw [if_neg (by simpa using hm)]
      exact writePart_events_respect N env rset wset i sock st nready [] (by simp)

theorem scanClients_events_respect (N M : Nat) (env : Env) (rset wset : fd_set) (n : Nat) :
    ∀ (i : Nat) (st : Server) (nready : Int),
      ∀ e ∈ (scanClients N M env rset wset n i st nready).2.2, e.respects rset wset := by
  induction n with
  | zero =>
    intro i st nready e he
    simp [scanClients] at he
  | succ n ih =>
    intro i st nready
    have h := clientBody_events_respect N M env rset wset i st nready
    unfold scanClients
    split
    · rename_i st1 nready1 ev1 heq
      rw [heq] at h
      have h2 := ih (i + 1) st1 nready1
      rcases hsc : scanClients N M env rset wset n (i + 1) st1 nready1 with ⟨fl, st2, ev2⟩
      rw [hsc] at h2
      dsimp only at h h2 ⊢
      intro e he
      rcases List.mem_append.mp he with he | he
      · exact h e he
      · exact h2 e he
    · rename_i fl st1 x ev1 hne heq
      rw [heq] at h
      exact h

theorem scanPhase_events_respect (N M : Nat) (env : Env) (rset wset : fd_set) (st : Server)
    (nready : Int) (ev0 : List Event) (h0 : ∀ e ∈ ev0, e.respects rset wset) :
    ∀ e ∈ (scanPhase N M env rset wset st nready ev0).2.2, e.respects rset wset := by
  have h := scanClients_events_respect N M env rset wset N 0 st nready
  unfold scanPhase
  rcases hsc : scanClients N M env rset wset N 0 st nready with ⟨fl, st1, ev1⟩
  rw [hsc] at h
  dsimp only at h ⊢
  intro e he
  rcases List.mem_append.mp he with he | he
  · exact h0 e he
  · exact h e he

/-- Every read of a pass is on a socket of `rset` and every send on a socket of `wset`;
for a pass that ends undefined these are the events up to the undefined step. -/
theorem selectServerCycle_events_respect (N M : Nat) (listen : Socket) (env : Env)
    (st : Server) (rc : Nat) (rset wset : fd_set) (hsel : env.select = .ready rc rset wset) :
    ∀ e ∈ (selectServerCycle N M listen env st).2.2, e.respects rset wset := by
  unfold selectServerCycle
  rw [hsel]
  dsimp only
  split
  · cases hacc : env.accept with
    | failed =>
      intro e he
      simp only [List.mem_cons, List.mem_singleton, List.not_mem_nil, or_false] at he
      rcases he with he | he <;> subst he <;> trivial
    | wouldBlock =>
      intro e he
      simp only [List.mem_cons, List.mem_singleton, List.not_mem_nil, or_false] at he
      rcases he with he | he <;> subst he <;> trivial
    | ok sock nonblocking =>
      dsimp only
      have h3 : ∀ e ∈ [Event.socketAccept listen sock 0, Event.socketSetBlocking sock 0,
          Event.onSelectServerConnect sock], e.respects rset wset := by
        intro e he
        simp only [List.mem_cons, List.mem_singleton, List.not_mem_nil, or_false] at he
        rcases he with he | he | he <;> subst he <;> trivial
      split
      · intro e he
        simp only [List.mem_cons, List.mem_singleton, List.not_mem_nil, or_false] at he
        rcases he with he | he | he | he <;> subst he <;> trivial
      · split
        · intro e he
          simp only [List.mem_cons, List.mem_singleton, List.not_mem_nil, or_false] at he
          rcases he with he | he | he | he <;> subst he <;> trivial
        · split
          · intro e he
            simp only [List.mem_cons, List.mem_singleton, List.not_mem_nil, or_false] at he
            rcases he with he | he <;> subst he <;> trivial
          · split
            · exact h3
            · exact scanPhase_events_respect N M env rset wset _ _ _ h3
  · exact scanPhase_events_respect N M env rset wset _ _ _ (by simp)

/-- The loop body for an entry whose socket is readable and whose `socketRecv` fails with a
code that is not transient: the teardown of lines 146-153, then the `break` of line 166
when the counter reaches 0, and otherwise the read of the destroyed socket at line 169. -/
theorem clientBody_recv_error (N M : Nat) (env : Env) (rset wset : fd_set) (i : Nat)
    (st : Server) (nready : Int) (sock : Socket) (errno : Errno)
    (hs : sockAt st i = some sock) (hr : sock.sd ∈ rset)
    (hrecv : env.recv i = .error errno) (ht : errno.transient = false) :
    clientBody N M env rset wset i st nready =
      ((if nready - 1 ≤ 0 then Flow.brk else Flow.undefined),
        { client := freeSlot st.client i
          ractual := FD_CLR sock.sd st.ractual
          wactual := FD_CLR sock.sd st.wactual },
        nready - 1,
        [.socketRecv sock M (-1), .onSelectServerRecvErr sock, .socketClose sock,
          .socketDestroy sock]) := by
  unfold clientBody
  rw [hs]
  dsimp only
  rw [if_pos ((FD_ISSET_iff _ _).mpr hr), hrecv]
  unfold readBranch
  dsimp only
  rw [if_neg (by simp [ht])]
  dsimp only
  by_cases hn : nready - 1 ≤ 0
  · rw [if_pos hn, if_pos hn]
  · rw [if_neg hn, if_neg hn]

theorem Event.rset_of_isReadTeardown {e : Event} {sock : Socket} {rset wset : fd_set}
    (ht : e.isReadTeardown sock = true) (hr : e.respects rset wset) : sock.sd ∈ rset := by
  cases e <;> simp [Event.isReadTeardown] at ht <;> subst ht <;> exact hr

theorem Event.wset_of_isSendOn {e : Event} {sock : Socket} {rset wset : fd_set}
    (ht : e.isSendOn sock = true) (hr : e.respects rset wset) : sock.sd ∈ wset := by
  cases e <;> simp [Event.isSendOn] at ht <;> subst ht <;> exact hr

/-- What the events of a pass show.  In a pass started in a reachable state, with ready
sets inside the registered interest sets, a socket for which `onSelectServerDisconnect` or
`onSelectServerRecvErr` was called has no `socketSend`, `onSelectServerSentOk` or
`onSelectServerSentErr` among the events of the pass.  For a pass that ends undefined
this speaks of the events up to the undefined step only. -/
theorem events_no_send_after_read_teardown (N M : Nat) (listen : Socket) (st : Server)
    (h : Reachable N M listen st) (env : Env) (rc : Nat) (rset wset : fd_set)
    (hsel : env.select = .ready rc rset wset) (hr : rset ⊆ st.ractual)
    (hw : wset ⊆ st.wactual) (sock : Socket)
    (hdown : ∃ e ∈ (selectServerCycle N M listen env st).2.2, e.isReadTeardown sock = true) :
    ∀ e ∈ (selectServerCycle N M listen env st).2.2, e.isSendOn sock = false := by
  have hdisj : ∀ fd, fd ∈ rset → fd ∉ wset := fun fd h1 h2 =>
    h.inv.disjoint fd (hr h1) (hw h2)
  rcases hdown with ⟨e1, he1, ht1⟩
  intro e he
  have hall := selectServerCycle_events_respect N M listen env st rc rset wset hsel
  have hin := Event.rset_of_isReadTeardown ht1 (hall e1 he1)
  cases hsend : e.isSendOn sock with
  | false => rfl
  | true => exact absurd (Event.wset_of_isSendOn hsend (hall e he)) (hdisj _ hin)

/-- C12, the code at a failing input.  In the reachable state `exState2` connections 4
(entry 0) and 5 (entry 1) are both reported readable, so `nready = 2`, and the ready sets
are inside the registered interest sets.  When `socketRecv` on connection 4 returns 0
(`exClose45`), or fails with `ECONNRESET` (`exReset45`), the read branch closes and
destroys the socket and frees entry 0.  Then `--nready` leaves 1, line 166 does not leave
the loop, and the write-readiness test of line 169, `FD_ISSET(*(int*)sock, &wset)`, reads
the destroyed socket: the test has no defined value, and the pass ends there, undefined,
before connection 5 is served. -/
theorem C12_write_test_reads_freed_socket :
    Reachable 8 4 exListen exState2 ∧
    exClose45.Valid exListen exState2 ∧ exReset45.Valid exListen exState2 ∧
    exClose45.select = .ready 2 {4, 5} ∅ ∧ exReset45.select = .ready 2 {4, 5} ∅ ∧
    ({4, 5} : fd_set) ⊆ exState2.ractual ∧ (∅ : fd_set) ⊆ exState2.wactual ∧
    exState2.client.map (fun c => c.sock) =
      [some ⟨4⟩, some ⟨5⟩, none, none, none, none, none, none] ∧
    (selectServerCycle 8 4 exListen exClose45 exState2).1 = .undefined ∧
    (selectServerCycle 8 4 exListen exClose45 exState2).2.2 =
      [.socketRecv ⟨4⟩ 4 0, .onSelectServerDisconnect ⟨4⟩, .socketClose ⟨4⟩,
        .socketDestroy ⟨4⟩] ∧
    (selectServerCycle 8 4 exListen exClose45 exState2).2.1.client.map (fun c => c.sock) =
      [none, some ⟨5⟩, none, none, none, none, none, none] ∧
    (selectServerCycle 8 4 exListen exReset45 exState2).1 = .undefined ∧
    (selectServerCycle 8 4 exListen exReset45 exState2).2.2 =
      [.socketRecv ⟨4⟩ 4 (-1), .onSelectServerRecvErr ⟨4⟩, .socketClose ⟨4⟩,
        .socketDestroy ⟨4⟩] ∧
    (selectServerCycle 8 4 exListen exReset45 exState2).2.1.client.map (fun c => c.sock) =
      [none, some ⟨5⟩, none, none, none, none, none, none] :=
  ⟨exState2_reachable, ⟨⟨by decide, by decide, by decide⟩, trivial⟩,
    ⟨⟨by decide, by decide, by decide⟩, trivial⟩, rfl, rfl, by decide, by decide, by decide,
    by decide, by decide, by decide, by decide, by decide, by decide⟩

end SelectUnix
